import Mathlib

/-!
# redditclone: votes, ownership, identifiers and validation

A shallow embedding of
* the post data model and the methods `Post.Upvote`, `Post.Downvote`,
  `Post.Unvote` and `Post.RecalculatePercentage` of `internal/model/post.go`;
* the in-memory repository `internal/repository/slicerepo/posts.go` and the
  service methods of `internal/service/posts.go` that run on it;
* the identifier package `pkg/hexid` and the validator `pkg/httpvalidator` with
  the schemas of `internal/handler/validator.go`;
* the error translator of `internal/handler/errors.go` and `pkg/httperr`, and
  the validation steps of `Handler.createPost`.

Conventions of the embedding:

* A Go method on `*Post` that mutates its receiver and returns it becomes a
  function `Post → Post`; the result is the receiver after the call.
* A Go slice becomes a `List`; `append(s[:i], s[i+1:]...)` becomes
  `s.take i ++ s.drop (i + 1)`.
* Go's `int` becomes `Int`. The score moves by at most two per call and the
  numerator of the percentage is at most one hundred times the number of votes,
  so the development reads the arithmetic of the source over the integers.
* `time.Now().UTC().Format(...)` in the constructors becomes an argument `now`
  holding the formatted timestamp.
* A method of the repository or of the service takes the list of stored posts
  and returns its result paired with the list after the call; a Go result
  `(T, error)` becomes an `Except CustomErr T`. Calls are taken one at a time,
  so the mutexes do not appear. A post read from the repository shares the
  arrays of its slices with the stored post; every service method writes the
  slice it computed back before it returns, so after the call the stored post
  is the one the lists give.
-/

set_option linter.dupNamespace false

namespace Redditclone

/-! ## Data model -/

/-- Modelled from the spec: the declaration of `model.Author` is not among the
sources; the spec describes it as an id+username pair and the callers build it
as `model.Author{ID: ..., Username: ...}`. -/
structure Author where
  ID : String
  Username : String
  deriving DecidableEq, Repr

/-- The struct `model.Vote`. -/
structure Vote where
  UserID : String
  Vote : Int
  deriving DecidableEq, Repr

/-- The struct `model.Comment`. -/
structure Comment where
  ID : String
  Created : String
  Author : Author
  Body : String
  deriving DecidableEq, Repr

/-- The struct `model.TextPostInput`. -/
structure TextPostInput where
  Category : String
  Title : String
  «Type» : String
  Text : String
  deriving DecidableEq, Repr

/-- The struct `model.URLPostInput`. -/
structure URLPostInput where
  Category : String
  Title : String
  «Type» : String
  URL : String
  deriving DecidableEq, Repr

/-- The struct `model.Post`, with its fields in the order of the source. -/
structure Post where
  ID : String
  Score : Int
  Views : Int
  «Type» : String
  Title : String
  Author : Author
  Category : String
  Text : String
  URL : String
  Votes : List Vote
  Comments : List Comment
  Created : String
  UpvotePercentage : Int
  deriving DecidableEq, Repr

/-- The constructor `model.NewTextPost`; `now` is the formatted creation time.
The field `URL` is not set by the source and keeps Go's zero value. -/
def NewTextPost (postID : String) (input : TextPostInput) (author : Author)
    (now : String) : Post :=
  { Score := 0
    Views := 0
    «Type» := input.«Type»
    Title := input.Title
    Author := author
    Category := input.Category
    Text := input.Text
    URL := ""
    Votes := []
    Comments := []
    Created := now
    UpvotePercentage := 0
    ID := postID }

/-- The constructor `model.NewURLPost`; `now` is the formatted creation time.
The field `Text` is not set by the source and keeps Go's zero value. -/
def NewURLPost (postID : String) (input : URLPostInput) (author : Author)
    (now : String) : Post :=
  { Score := 0
    Views := 0
    «Type» := input.«Type»
    Title := input.Title
    Author := author
    Category := input.Category
    Text := ""
    URL := input.URL
    Votes := []
    Comments := []
    Created := now
    UpvotePercentage := 0
    ID := postID }

/-! ## The vote methods -/

/-- The scan shared by the three vote methods,
`for i, vote := range p.Votes { if vote.UserID == userID { ...; break } }`:
the index `i` and the copy `vote` of the iteration that takes the branch, or
`none` when the loop runs to the end. -/
def findVoter (userID : String) : List Vote → Option (Nat × Vote)
  | [] => none
  | vote :: rest =>
    if vote.UserID = userID then some (0, vote)
    else (findVoter userID rest).map fun r => (r.1 + 1, r.2)

/-- The assignment `p.Votes[i].Vote = d`: only the field `Vote` of the element at
index `i` changes. -/
def setVoteAt : List Vote → Nat → Int → List Vote
  | [], _, _ => []
  | vote :: rest, 0, d => { vote with Vote := d } :: rest
  | vote :: rest, i + 1, d => vote :: setVoteAt rest i d

/-- The method `Post.Upvote`. -/
def Upvote (p : Post) (userID : String) : Post :=
  match findVoter userID p.Votes with
  | some (i, _) => { p with Votes := setVoteAt p.Votes i 1, Score := p.Score + 2 }
  | none => { p with Votes := p.Votes ++ [{ UserID := userID, Vote := 1 }], Score := p.Score + 1 }

/-- The method `Post.Downvote`. -/
def Downvote (p : Post) (userID : String) : Post :=
  match findVoter userID p.Votes with
  | some (i, _) => { p with Votes := setVoteAt p.Votes i (-1), Score := p.Score - 2 }
  | none => { p with Votes := p.Votes ++ [{ UserID := userID, Vote := -1 }], Score := p.Score - 1 }

/-- The method `Post.Unvote`. -/
def Unvote (p : Post) (userID : String) : Post :=
  match findVoter userID p.Votes with
  | some (i, vote) =>
    { p with Votes := p.Votes.take i ++ p.Votes.drop (i + 1), Score := p.Score - vote.Vote }
  | none => p

/-- The counting loop of `Post.RecalculatePercentage`:
`upvotes := 0; for _, vote := range p.Votes { if vote.Vote == 1 { upvotes++ } }`. -/
def countUpvotes (votes : List Vote) : Int :=
  votes.foldl (fun upvotes vote => if vote.Vote = 1 then upvotes + 1 else upvotes) 0

/-- The method `Post.RecalculatePercentage`; Go's `/` on `int` truncates toward
zero, which is `Int.tdiv`. -/
def RecalculatePercentage (p : Post) : Post :=
  if p.Votes.length = 0 then { p with UpvotePercentage := 0 }
  else { p with UpvotePercentage := Int.tdiv (100 * countUpvotes p.Votes) (p.Votes.length : Int) }

/-- The invariant of the data model: at most one vote per voter. -/
def DistinctVoters (votes : List Vote) : Prop :=
  (votes.map Vote.UserID).Nodup

instance (votes : List Vote) : Decidable (DistinctVoters votes) := by
  unfold DistinctVoters; infer_instance

/-- One call of the vote state machine: which method, by which voter. -/
inductive VoteOp where
  | upvote (userID : String)
  | downvote (userID : String)
  | unvote (userID : String)
  deriving DecidableEq, Repr

/-- The effect of one call on a post. -/
def applyOp (p : Post) : VoteOp → Post
  | .upvote u => Upvote p u
  | .downvote u => Downvote p u
  | .unvote u => Unvote p u

/-- The effect of a sequence of calls, first call first. -/
def applyOps (p : Post) (ops : List VoteOp) : Post :=
  ops.foldl applyOp p

/-- A post just returned by one of the two constructors. -/
def IsNewPost (p : Post) : Prop :=
  (∃ postID input author now, p = NewTextPost postID input author now) ∨
  (∃ postID input author now, p = NewURLPost postID input author now)

/-- A sample post with no votes, used for concrete evaluations. -/
def samplePost : Post :=
  NewTextPost "5f1a2b3c4d5e6f7a8b9c0d1e" ⟨"funny", "t", "text", "b"⟩ ⟨"a1", "alice"⟩
    "2024-01-01T00:00:00.000Z"

/-- The sum of the stored directions of a vote list. -/
def sumVotes (votes : List Vote) : Int :=
  (votes.map Vote.Vote).sum

/-! ## Users and domain errors -/

/-- The struct `model.Credential`. -/
structure Credential where
  Username : String
  Password : String
  deriving DecidableEq, Repr

/-- The struct `model.User`, which embeds `Credential`, so that `usr.Username`
is the promoted field of the source. -/
structure User extends Credential where
  ID : String
  deriving DecidableEq, Repr

/-- The error values of package `customerr`, one constructor per struct type,
with the fields of the struct. -/
inductive CustomErr where
  | UserAlreadyExists (Username : String)
  | WrongCredential (Username : String)
  | UserNotFoundByID (UserID : String)
  | UserNotFoundByUsername (Username : String)
  | PostNotFoundByID (PostID : String)
  | CommentNotFoundByID (PostID : String) (CommentID : String)
  | NotOwner (Username : String)
  | RequestNotParsed (Message : String)
  | Unauthorized (Message : String)
  deriving DecidableEq, Repr

deriving instance DecidableEq for Except

/-- The zero value `model.Post{}`, what an index expression would read from a
missing slot. -/
def Post.zero : Post :=
  { ID := "", Score := 0, Views := 0, «Type» := "", Title := "", Author := ⟨"", ""⟩,
    Category := "", Text := "", URL := "", Votes := [], Comments := [], Created := "",
    UpvotePercentage := 0 }

/-! ## The in-memory repository `slicerepo.postsRepo`

The state of the repository is its field `posts`, a list of posts; every method
takes the state and returns its result together with the state after the call.
The read-write mutex is left out: the calls are taken one at a time. -/

namespace slicerepo

/-- The scan `for idx, existedPost := range r.posts { if existedPost.ID == postID { ... } }`
of the repository methods: the index and the copy of the first post with that
identifier, or `none` when the loop runs to the end. -/
def findPost (postID : String) : List Post → Option (Nat × Post)
  | [] => none
  | post :: rest =>
    if post.ID = postID then some (0, post)
    else (findPost postID rest).map fun r => (r.1 + 1, r.2)

/-- The scan `for i, comment := range existedPost.Comments { if comment.ID == commentID { ... } }`. -/
def findComment (commentID : String) : List Comment → Option (Nat × Comment)
  | [] => none
  | comment :: rest =>
    if comment.ID = commentID then some (0, comment)
    else (findComment commentID rest).map fun r => (r.1 + 1, r.2)

/-- An assignment to fields of `r.posts[idx]`: the post at index `idx` becomes
`f` of itself, the others stay. -/
def modifyAt : List Post → Nat → (Post → Post) → List Post
  | [], _, _ => []
  | post :: rest, 0, f => f post :: rest
  | post :: rest, idx + 1, f => post :: modifyAt rest idx f

/-- The method `postsRepo.GetPostByID`. -/
def GetPostByID (posts : List Post) (postID : String) : Except CustomErr Post :=
  match findPost postID posts with
  | some (_, post) => .ok post
  | none => .error (.PostNotFoundByID postID)

/-- The method `postsRepo.GetPostByIDAndUpdateViews`. -/
def GetPostByIDAndUpdateViews (posts : List Post) (postID : String) :
    Except CustomErr Post × List Post :=
  match findPost postID posts with
  | some (i, _) =>
    let posts1 := modifyAt posts i fun q => { q with Views := q.Views + 1 }
    (.ok (posts1.getD i Post.zero), posts1)
  | none => (.error (.PostNotFoundByID postID), posts)

/-- The method `postsRepo.DeletePost`. -/
def DeletePost (posts : List Post) (postID : String) : Except CustomErr Unit × List Post :=
  match findPost postID posts with
  | some (idx, _) => (.ok (), posts.take idx ++ posts.drop (idx + 1))
  | none => (.error (.PostNotFoundByID postID), posts)

/-- The method `postsRepo.GetCommentByID`. -/
def GetCommentByID (posts : List Post) (postID commentID : String) : Except CustomErr Comment :=
  match findPost postID posts with
  | some (_, existedPost) =>
    match findComment commentID existedPost.Comments with
    | some (_, existedComment) => .ok existedComment
    | none => .error (.CommentNotFoundByID postID commentID)
  | none => .error (.PostNotFoundByID postID)

/-- The method `postsRepo.DeleteComment`. -/
def DeleteComment (posts : List Post) (postID commentID : String) :
    Except CustomErr Post × List Post :=
  match findPost postID posts with
  | some (idx, existedPost) =>
    match findComment commentID existedPost.Comments with
    | some (i, _) =>
      let posts1 := modifyAt posts idx fun q =>
        { q with Comments := existedPost.Comments.take i ++ existedPost.Comments.drop (i + 1) }
      (.ok (posts1.getD idx Post.zero), posts1)
    | none => (.error (.CommentNotFoundByID postID commentID), posts)
  | none => (.error (.PostNotFoundByID postID), posts)

/-- The method `postsRepo.UpdateVotes`. -/
def UpdateVotes (posts : List Post) (postID : String) (score upvotePercentage : Int)
    (votes : List Vote) : Except CustomErr Unit × List Post :=
  match findPost postID posts with
  | some (i, _) =>
    (.ok (), modifyAt posts i fun q =>
      { q with Score := score, UpvotePercentage := upvotePercentage, Votes := votes })
  | none => (.error (.PostNotFoundByID postID), posts)

end slicerepo

/-! ## The service over the in-memory repository

The service reaches its repository through an interface; here the repository
is `slicerepo`. The mutex `postsMutex` and the log lines are left out. -/

namespace service

/-- The method `service.GetPostByID`. -/
def GetPostByID (posts : List Post) (postID : String) : Except CustomErr Post × List Post :=
  slicerepo.GetPostByIDAndUpdateViews posts postID

/-- The method `service.DeletePost`. -/
def DeletePost (posts : List Post) (postID : String) (usr : User) :
    Except CustomErr Unit × List Post :=
  match slicerepo.GetPostByID posts postID with
  | .error err => (.error err, posts)
  | .ok post =>
    if post.Author.ID ≠ usr.ID then (.error (.NotOwner usr.Username), posts)
    else
      match slicerepo.DeletePost posts postID with
      | (.error err, posts1) => (.error err, posts1)
      | (.ok _, posts1) => (.ok (), posts1)

/-- The method `service.DeleteComment`. -/
def DeleteComment (posts : List Post) (postID commentID : String) (usr : User) :
    Except CustomErr Post × List Post :=
  match slicerepo.GetCommentByID posts postID commentID with
  | .error err => (.error err, posts)
  | .ok comment =>
    if comment.Author.ID ≠ usr.ID then (.error (.NotOwner usr.Username), posts)
    else
      match slicerepo.DeleteComment posts postID commentID with
      | (.error err, posts1) => (.error err, posts1)
      | (.ok post, posts1) => (.ok post, posts1)

/-- The common shape of `UpvotePost`, `DownvotePost` and `UnvotePost`: read the
post, apply the vote method and `RecalculatePercentage` to the copy, write the
three fields back with `UpdateVotes`, return the copy. -/
def votePost (vote : Post → String → Post) (posts : List Post) (postID : String) (usr : User) :
    Except CustomErr Post × List Post :=
  match slicerepo.GetPostByID posts postID with
  | .error err => (.error err, posts)
  | .ok post0 =>
    let post := RecalculatePercentage (vote post0 usr.ID)
    match slicerepo.UpdateVotes posts postID post.Score post.UpvotePercentage post.Votes with
    | (.error err, posts1) => (.error err, posts1)
    | (.ok _, posts1) => (.ok post, posts1)

/-- The method `service.UpvotePost`. -/
def UpvotePost (posts : List Post) (postID : String) (usr : User) :
    Except CustomErr Post × List Post :=
  votePost Upvote posts postID usr

/-- The method `service.DownvotePost`. -/
def DownvotePost (posts : List Post) (postID : String) (usr : User) :
    Except CustomErr Post × List Post :=
  votePost Downvote posts postID usr

/-- The method `service.UnvotePost`. -/
def UnvotePost (posts : List Post) (postID : String) (usr : User) :
    Except CustomErr Post × List Post :=
  votePost Unvote posts postID usr

end service

/-- The post `post` is the one stored under `postID`: it is the first post of
the list with that identifier, the one every repository method works on. -/
def StoredUnder (posts : List Post) (postID : String) (post : Post) : Prop :=
  ∃ pre rest, posts = pre ++ post :: rest ∧ post.ID = postID ∧ ∀ q ∈ pre, q.ID ≠ postID

/-- The comment `comment` is the one stored under `commentID` in a comment list:
the first comment of the list with that identifier. -/
def CommentStoredUnder (comments : List Comment) (commentID : String) (comment : Comment) : Prop :=
  ∃ pre rest, comments = pre ++ comment :: rest ∧ comment.ID = commentID ∧
    ∀ c ∈ pre, c.ID ≠ commentID

/-- Sample users: the author of `samplePost` and somebody else. -/
def alice : User := { ID := "a1", Username := "alice", Password := "" }

/-- A user who is not the author of `samplePost`. -/
def bob : User := { ID := "b2", Username := "bob", Password := "" }

/-- A sample comment on `samplePost`, written by alice. -/
def sampleComment : Comment :=
  { ID := "0123456789abcdef01234567", Created := "2024-01-02T00:00:00.000Z",
    Author := ⟨"a1", "alice"⟩, Body := "hello" }

/-- A second post, with a comment, with an identifier of its own. -/
def otherPost : Post :=
  { NewURLPost "aaaaaaaaaaaaaaaaaaaaaaaa" ⟨"news", "n", "link", "http://x"⟩ ⟨"a1", "alice"⟩
      "2024-01-03T00:00:00.000Z" with Comments := [sampleComment] }

/-- A repository state in which two posts carry the same identifier, the state
after two `AddPost` calls whose generated identifiers coincide. -/
def collidingPosts : List Post :=
  [samplePost, { samplePost with Title := "second" }]

/-- A repository state in which two posts by different authors carry the same
identifier: the first is by alice, the second by bob. -/
def collidingAuthors : List Post :=
  [samplePost, { samplePost with Author := ⟨"b2", "bob"⟩ }]

/-- A repository state whose one post holds two comments under the same
identifier, the state after two `AddComment` calls whose generated identifiers
coincide: the first comment is by bob, the second by alice. -/
def collidingComments : List Post :=
  [{ samplePost with Comments := [{ sampleComment with Author := ⟨"b2", "bob"⟩ }, sampleComment] }]

/-! ## Package `hexid`

`Validate` hands the pattern to the standard library's `regexp.MatchString`.
The library is modelled for the constructs the pattern uses: the anchors `^`
and `$` (without the multi-line flag they hold at the start and at the end of
the text only), a character class of ranges, a counted repetition and
concatenation. `MatchString` reports whether the text contains a match
starting at any position. -/

namespace hexid

/-- The regular expressions the pattern is made of. -/
inductive Regex where
  | beginText
  | endText
  | charClass (ranges : List (Char × Char))
  | repeatN (r : Regex) (n : Nat)
  | concat (r s : Regex)
  deriving Repr

/-- Run `f` on every state of a list, `n` times over: the counted repetition. -/
def iterate (f : Nat × List Char → List (Nat × List Char)) :
    Nat → List (Nat × List Char) → List (Nat × List Char)
  | 0, states => states
  | n + 1, states => iterate f n (states.flatMap f)

/-- The states in which a match of the expression may end when it starts in
the state `(pos, rest)`: `pos` characters of the text are behind and `rest` is
ahead. -/
def matchEnds : Regex → Nat × List Char → List (Nat × List Char)
  | .beginText, (pos, rest) => if pos = 0 then [(pos, rest)] else []
  | .endText, (pos, rest) => if rest.isEmpty then [(pos, rest)] else []
  | .charClass ranges, (pos, rest) =>
    match rest with
    | [] => []
    | c :: cs => if ranges.any fun r => decide (r.1 ≤ c ∧ c ≤ r.2) then [(pos + 1, cs)] else []
  | .repeatN r n, state => iterate (matchEnds r) n [state]
  | .concat r s, state => (matchEnds r state).flatMap (matchEnds s)

/-- The library call `regexp.MatchString` on a parsed pattern: some position of
the text starts a match. -/
def MatchString (re : Regex) (s : String) : Bool :=
  (List.range (s.length + 1)).any fun i => !(matchEnds re (i, s.toList.drop i)).isEmpty

/-- The package variable `pattern`, the expression `^[0-9a-f]{24}$` parsed. -/
def pattern : Regex :=
  .concat .beginText (.concat (.repeatN (.charClass [('0', '9'), ('a', 'f')]) 24) .endText)

/-- The function `hexid.Validate`. -/
def Validate (id : String) : Bool :=
  MatchString pattern id

/-- The digit table of package `fmt` for the verb `%x`. -/
def ldigits : List Char := "0123456789abcdefx".toList

/-- The call `fmt.Sprintf("%x", b)` on a byte slice: two digits per byte, the high
half `c >> 4` first, then the low half `c & 0xF`. -/
def Sprintf_x (b : List Nat) : String :=
  String.mk (b.flatMap fun c => [ldigits.getD (c / 16) 'x', ldigits.getD (c % 16) 'x'])

/-- The function `hexid.Generate`; `randRead n` stands for `rand.Read` on a
fresh slice of `n` bytes and yields the bytes it filled in, or its error. -/
def Generate {ε : Type} (randRead : Nat → Except ε (List Nat)) : Except ε String :=
  match randRead 12 with
  | .error err => .error err
  | .ok b => .ok (Sprintf_x b)

end hexid

/-! ## Package `httpvalidator`

A Go `map[string]V` becomes a `GoMap V`: its entries, no key twice, listed in the
order in which the one `range` loop of the run under study visits them. Go leaves
that order open, and every statement below holds for every order. -/

/-- A Go map with string keys. -/
structure GoMap (V : Type) where
  entries : List (String × V)
  nodup : (entries.map Prod.fst).Nodup

/-- The empty map, also what a `nil` map reads as. -/
def GoMap.empty {V : Type} : GoMap V :=
  ⟨[], List.nodup_nil⟩

/-- The lookup `value, ok := m[key]`, with `none` for `ok == false`. -/
def GoMap.get? {V : Type} (m : GoMap V) (key : String) : Option V :=
  (m.entries.find? fun e => e.1 = key).map Prod.snd

/-- The assignment `m[key] = value`: an earlier entry of the key is replaced. -/
def GoMap.insert {V : Type} (m : GoMap V) (key : String) (value : V) : GoMap V :=
  ⟨(m.entries.filter fun e => e.1 ≠ key) ++ [(key, value)], by
    rw [List.map_append, List.nodup_append]
    refine ⟨(m.nodup.sublist ((List.filter_sublist m.entries).map _)), by simp, ?_⟩
    intro a ha hb
    simp only [List.map_cons, List.map_nil, List.mem_singleton] at hb
    obtain ⟨e, he, hea⟩ := List.mem_map.mp ha
    have hne := (List.mem_filter.mp he).2
    simp only [ne_eq, decide_not, Bool.not_eq_true', decide_eq_false_iff_not] at hne
    exact hne (hea.trans hb)⟩

namespace httpvalidator

/-- The constant `requiredMessage`. -/
def requiredMessage : String := "field is required"

/-- The struct `httpvalidator.Rule`. -/
structure Rule where
  Description : String
  Validate : String → Bool

/-- The struct `httpvalidator.BodyField`. -/
structure BodyField where
  Required : Bool
  Rules : List Rule

/-- The type `httpvalidator.Fields`. -/
abbrev Fields := GoMap BodyField

/-- The struct `httpvalidator.RequestBody`. -/
structure RequestBody where
  Fields : Fields

/-- The type `httpvalidator.Bodies`. -/
abbrev Bodies := GoMap RequestBody

/-- The type `httpvalidator.PathValues`. -/
abbrev PathValues := GoMap (List Rule)

/-- The struct `httpvalidator.Validator`. -/
structure Validator where
  BodyTemplates : Bodies
  PathValueTemplates : PathValues

/-- The constructor `httpvalidator.NewValidator`. -/
def NewValidator : Validator :=
  { BodyTemplates := GoMap.empty, PathValueTemplates := GoMap.empty }

/-- The method `Validator.AddBodyTemplate`. -/
def Validator.AddBodyTemplate (v : Validator) (templateName : String) (template : RequestBody) :
    Validator :=
  { v with BodyTemplates := v.BodyTemplates.insert templateName template }

/-- The method `Validator.AddPathValueTemplate`. -/
def Validator.AddPathValueTemplate (v : Validator) (templateName : String) (rules : List Rule) :
    Validator :=
  { v with PathValueTemplates := v.PathValueTemplates.insert templateName rules }

/-- The struct `httpvalidator.ValidationError`. -/
structure ValidationError where
  Location : String
  Param : String
  Value : String
  Message : String
  deriving DecidableEq, Repr

/-- The fields the loop of `ValidateBody` ranges over,
`v.BodyTemplates[bodyName].Fields`: for a name that was never registered the
lookup gives the zero `RequestBody`, whose `Fields` is a `nil` map. -/
def Validator.fieldsOf (v : Validator) (bodyName : String) : List (String × BodyField) :=
  match v.BodyTemplates.get? bodyName with
  | some template => template.Fields.entries
  | none => []

/-- The inner loop of `ValidateBody`,
`for _, rule := range field.Rules { if !rule.Validate(value) { response = append(...) } }`. -/
def runRules (location param value : String) (rules : List Rule)
    (response : List ValidationError) : List ValidationError :=
  rules.foldl (fun response rule =>
    if !rule.Validate value then
      response ++ [{ Location := location, Param := param, Value := value,
                     Message := rule.Description }]
    else response) response

/-- The method `Validator.ValidateBody`. A missing key reads as the empty string
with `ok == false`. -/
def Validator.ValidateBody (v : Validator) (bodyName : String) (body : GoMap String) :
    List ValidationError :=
  (v.fieldsOf bodyName).foldl (fun response entry =>
    let param := entry.1
    let field := entry.2
    let value := (body.get? param).getD ""
    let ok := (body.get? param).isSome
    if !ok && field.Required then
      response ++ [{ Location := "body", Param := param, Value := value,
                     Message := requiredMessage }]
    else runRules "body" param value field.Rules response) []

/-- The method `Validator.ValidatePathValue`; an unregistered name reads as a
`nil` slice of rules. -/
def Validator.ValidatePathValue (v : Validator) (param value : String) : List ValidationError :=
  runRules "path" param value ((v.PathValueTemplates.get? param).getD []) []

/-- The errors the description of `ValidateBody` asks of one declared field:
the single "field is required" error when the key is absent and the field
required; otherwise one error per rule that rejects the value, in rule order,
the value of an absent key being the empty string. -/
def expectedFieldErrors (body : GoMap String) (entry : String × BodyField) :
    List ValidationError :=
  if body.get? entry.1 = none ∧ entry.2.Required = true then
    [{ Location := "body", Param := entry.1, Value := "", Message := "field is required" }]
  else
    (entry.2.Rules.filter fun rule => !rule.Validate ((body.get? entry.1).getD "")).map fun rule =>
      { Location := "body", Param := entry.1, Value := (body.get? entry.1).getD "",
        Message := rule.Description }

end httpvalidator

/-! ## The schemas of `handler.initValidator` -/

namespace handler

open httpvalidator

/-- The package variable `categories`. -/
def categories : List String := ["music", "funny", "videos", "programming", "news", "fashion"]

/-- The rule function of the category rules: the loop over `categories`. -/
def isCategory (category : String) : Bool :=
  categories.any fun existedCategory => existedCategory = category

/-- The rule function `len(s) > 0`; Go's `len` of a string counts bytes. -/
def nonEmpty (s : String) : Bool :=
  decide (s.utf8ByteSize > 0)

/-- The template `postInputTmpl`. -/
def postInputTmpl : RequestBody :=
  { Fields := ((GoMap.empty.insert "category"
      { Required := true, Rules := [⟨"category must has specific type", isCategory⟩] }).insert "title"
      { Required := true, Rules := [⟨"title must be a non-empty string", nonEmpty⟩] }).insert "type"
      { Required := true,
        Rules := [⟨"type must be a text or a link",
                   fun postType => postType = "text" || postType = "link"⟩] } }

/-- The template `textPostInputTmpl`. -/
def textPostInputTmpl : RequestBody :=
  { Fields := GoMap.empty.insert "text"
      { Required := true, Rules := [⟨"text must be a non-empty string", nonEmpty⟩] } }

/-- The template `urlPostInputTmpl`. -/
def urlPostInputTmpl : RequestBody :=
  { Fields := GoMap.empty.insert "url"
      { Required := true, Rules := [⟨"url must be a non-empty string", nonEmpty⟩] } }

/-- The template `credentialTmpl`. -/
def credentialTmpl : RequestBody :=
  { Fields := (GoMap.empty.insert "username"
      { Required := true, Rules := [⟨"username must be a non-empty string", nonEmpty⟩] }).insert
      "password"
      { Required := true, Rules := [⟨"password must be a non-empty string", nonEmpty⟩] } }

/-- The template `commentTmpl`. -/
def commentTmpl : RequestBody :=
  { Fields := GoMap.empty.insert "comment"
      { Required := true, Rules := [⟨"comment must be a non-empty string", nonEmpty⟩] } }

/-- The validator `initValidator` leaves in the handler: the five body templates
and the five path value templates, registered in the order of the source. -/
def initValidator : Validator :=
  (((((((((NewValidator.AddBodyTemplate "PostInput" postInputTmpl).AddBodyTemplate
    "TextPostInput" textPostInputTmpl).AddBodyTemplate
    "URLPostInput" urlPostInputTmpl).AddBodyTemplate
    "Credential" credentialTmpl).AddBodyTemplate
    "Comment" commentTmpl).AddPathValueTemplate
    "user_id" [⟨"user_id must be a hexadecimal 24-symbols string", hexid.Validate⟩]).AddPathValueTemplate
    "post_id" [⟨"post_id must be a hexadecimal 24-symbols string", hexid.Validate⟩]).AddPathValueTemplate
    "comment_id" [⟨"comment_id must be a hexadecimal 24-symbols string", hexid.Validate⟩]).AddPathValueTemplate
    "category" [⟨"category must has specific type", isCategory⟩]).AddPathValueTemplate
    "username" [⟨"username must be a non-empty string", nonEmpty⟩]

/-- A request body with the key `username` only, as in the sign-up test. -/
def usernameOnly : GoMap String :=
  GoMap.empty.insert "username" "van"

/-- A request body whose key `comment` holds the empty string, as in the
create-comment test. -/
def emptyComment : GoMap String :=
  GoMap.empty.insert "comment" ""

end handler

/-! ## Comments, author listing and the error translator -/

/-- The constructor `model.NewComment`; `now` is the formatted creation time. -/
def NewComment (commentID : String) (text : String) (author : Author) (now : String) : Comment :=
  { ID := commentID, Created := now, Author := author, Body := text }

/-- The method `postsRepo.GetPostsByAuthor` of the in-memory repository. The loop
compares `existedPost.Category` with `username`, as the source does. -/
def slicerepo.GetPostsByAuthor (posts : List Post) (username : String) :
    Except CustomErr (List Post) :=
  .ok (posts.foldl (fun found existedPost =>
    if existedPost.Category = username then found ++ [existedPost] else found) [])

/-- The method `postsRepo.AddComment` of the in-memory repository. -/
def slicerepo.AddComment (posts : List Post) (postID : String) (comment : Comment) :
    Except CustomErr Post × List Post :=
  match slicerepo.findPost postID posts with
  | some (idx, existedPost) =>
    let posts1 := slicerepo.modifyAt posts idx fun q =>
      { q with Comments := existedPost.Comments ++ [comment] }
    (.ok (posts1.getD idx Post.zero), posts1)
  | none => (.error (.PostNotFoundByID postID), posts)

namespace httperr

/-- The struct `httperr.UnprocessableEntityItem`. -/
structure UnprocessableEntityItem where
  Location : String
  Param : String
  Value : String
  Message : String
  deriving DecidableEq, Repr

/-- The error values of package `httperr`, one constructor per struct type. -/
inductive HttpErr where
  | BadRequest (Message : String)
  | NotFound (Message : String)
  | Unauthorized (Message : String)
  | Forbidden (Message : String)
  | UnprocessableEntity (Errors : List UnprocessableEntityItem)
  | InternalError (Message : String)
  deriving DecidableEq, Repr

end httperr

/-- A value of Go's interface `error` as this program meets it: a value of one
of the `customerr` types, a value of one of the `httperr` types, or any other
error, such as the one of the randomness source, kept by its message. -/
inductive GoError where
  | custom (err : CustomErr)
  | http (err : httperr.HttpErr)
  | other (message : String)
  deriving DecidableEq, Repr

namespace httperr

/-- What `HandleError` leaves in the response writer: the status code, and the
value whose JSON encoding `http.Error` writes as the body, `none` when only the
header is written. `json.Marshal` does not fail on these structs of strings. -/
structure Response where
  StatusCode : Nat
  Body : Option HttpErr
  deriving DecidableEq, Repr

/-- The function `httperr.HandleError`. -/
def HandleError (inputErr : GoError) : Response :=
  match inputErr with
  | .http (.BadRequest m) => { StatusCode := 400, Body := some (.BadRequest m) }
  | .http (.NotFound m) => { StatusCode := 404, Body := some (.NotFound m) }
  | .http (.Unauthorized m) => { StatusCode := 401, Body := some (.Unauthorized m) }
  | .http (.Forbidden m) => { StatusCode := 403, Body := some (.Forbidden m) }
  | .http (.UnprocessableEntity errs) =>
    { StatusCode := 422, Body := some (.UnprocessableEntity errs) }
  | .http (.InternalError m) => { StatusCode := 500, Body := some (.InternalError m) }
  | _ => { StatusCode := 500, Body := none }

end httperr

/-- The method `service.AddComment`; `randRead` is the randomness source of
`hexid.Generate` and `now` the formatted time `NewComment` stamps. -/
def service.AddComment (randRead : Nat → Except GoError (List Nat)) (now : String)
    (posts : List Post) (postID : String) (commentText : String) (usr : User) :
    Except GoError Post × List Post :=
  match hexid.Generate randRead with
  | .error err => (.error err, posts)
  | .ok commentID =>
    let comment := NewComment commentID commentText { ID := usr.ID, Username := usr.Username } now
    match slicerepo.AddComment posts postID comment with
    | (.error err, posts1) => (.error (.custom err), posts1)
    | (.ok post, posts1) => (.ok post, posts1)

namespace handler

/-- The method `Handler.handleValidationErrors`. -/
def handleValidationErrors (errs : List httpvalidator.ValidationError) : httperr.Response :=
  httperr.HandleError (.http (.UnprocessableEntity
    (errs.foldl (fun res err =>
      res ++ [{ Location := err.Location, Param := err.Param, Value := err.Value,
                Message := err.Message }]) [])))

/-- The method `Handler.handleError`: the type switch on the error. -/
def handleError (err : GoError) : httperr.Response :=
  match err with
  | .custom (.UserAlreadyExists username) =>
    httperr.HandleError (.http (.UnprocessableEntity
      [{ Location := "body", Param := "username", Value := username, Message := "already exists" }]))
  | .custom (.WrongCredential _) => httperr.HandleError (.http (.Unauthorized "wrong credential"))
  | .custom (.Unauthorized _) => httperr.HandleError (.http (.Unauthorized "user unauthorized"))
  | .custom (.UserNotFoundByID _) => httperr.HandleError (.http (.NotFound "user not found"))
  | .custom (.UserNotFoundByUsername _) => httperr.HandleError (.http (.NotFound "user not found"))
  | .custom (.PostNotFoundByID _) => httperr.HandleError (.http (.NotFound "post not found"))
  | .custom (.CommentNotFoundByID _ _) => httperr.HandleError (.http (.NotFound "comment not found"))
  | .custom (.NotOwner _) => httperr.HandleError (.http (.Forbidden "user not own this resource"))
  | .custom (.RequestNotParsed _) => httperr.HandleError (.http (.BadRequest "bad request"))
  | _ => httperr.HandleError (.http (.InternalError "internal error"))

/-- The validation steps of `Handler.createPost`, from the decoded body on: the
batch of errors handed to `handleValidationErrors` before the method returns,
or `none` when both validations pass and the method goes on to the service. -/
def createPostValidation (v : httpvalidator.Validator) (input : GoMap String) :
    Option (List httpvalidator.ValidationError) :=
  let errs := v.ValidateBody "PostInput" input
  if errs.length ≠ 0 then some errs
  else
    let validationSchema :=
      if (input.get? "type").getD "" = "link" then "URLPostInput"
      else if (input.get? "type").getD "" = "text" then "TextPostInput"
      else ""
    let errs := v.ValidateBody validationSchema input
    if errs.length ≠ 0 then some errs else none

/-- A create-post body with a category outside the list and an empty text. -/
def badCategoryEmptyText : GoMap String :=
  (((GoMap.empty.insert "category" "kek").insert "title" "bebe").insert "type" "text").insert
    "text" ""

/-- A create-post body that passes the schema `PostInput`. -/
def goodPostInput : GoMap String :=
  ((GoMap.empty.insert "category" "funny").insert "title" "bebe").insert "type" "text"

end handler

/-- A randomness source that fails. -/
def brokenRand : Nat → Except GoError (List Nat) :=
  fun _ => .error (.other "entropy source unavailable")

/-- A randomness source that delivers twelve bytes. -/
def fixedRand : Nat → Except GoError (List Nat) :=
  fun _ => .ok [0, 17, 34, 51, 68, 85, 102, 119, 136, 153, 171, 255]

/-! ## Lemmas on the scan -/

theorem findVoter_eq_none {userID : String} {votes : List Vote}
    (h : ∀ v ∈ votes, v.UserID ≠ userID) : findVoter userID votes = none := by
  induction votes with
  | nil => rfl
  | cons v rest ih =>
    have hv : v.UserID ≠ userID := h v (List.mem_cons_self _ _)
    have hrest : ∀ w ∈ rest, w.UserID ≠ userID := fun w hw => h w (List.mem_cons_of_mem _ hw)
    simp [findVoter, hv, ih hrest]

theorem findVoter_split {userID : String} (pre : List Vote) (vote : Vote) (post : List Vote)
    (hpre : ∀ v ∈ pre, v.UserID ≠ userID) (hvote : vote.UserID = userID) :
    findVoter userID (pre ++ vote :: post) = some (pre.length, vote) := by
  induction pre with
  | nil => simp [findVoter, hvote]
  | cons v rest ih =>
    have hv : v.UserID ≠ userID := hpre v (List.mem_cons_self _ _)
    have hrest : ∀ w ∈ rest, w.UserID ≠ userID := fun w hw => hpre w (List.mem_cons_of_mem _ hw)
    simp [findVoter, hv, ih hrest]

theorem setVoteAt_split (pre : List Vote) (vote : Vote) (post : List Vote) (d : Int) :
    setVoteAt (pre ++ vote :: post) pre.length d = pre ++ { vote with Vote := d } :: post := by
  induction pre with
  | nil => rfl
  | cons v rest ih => simp [setVoteAt, ih]

theorem remove_split (pre : List Vote) (vote : Vote) (post : List Vote) :
    (pre ++ vote :: post).take pre.length ++ (pre ++ vote :: post).drop (pre.length + 1)
      = pre ++ post := by
  induction pre with
  | nil => simp
  | cons v rest ih => simp

/-- Every list with an entry by `userID` splits at the first such entry. -/
theorem exists_first_split (userID : String) {votes : List Vote}
    (h : ∃ v ∈ votes, v.UserID = userID) :
    ∃ pre vote post, votes = pre ++ vote :: post ∧ vote.UserID = userID ∧
      ∀ v ∈ pre, v.UserID ≠ userID := by
  induction votes with
  | nil => simp at h
  | cons v rest ih =>
    by_cases hv : v.UserID = userID
    · exact ⟨[], v, rest, rfl, hv, by simp⟩
    · have hrest : ∃ w ∈ rest, w.UserID = userID := by
        obtain ⟨w, hw, hwu⟩ := h
        rcases List.mem_cons.mp hw with rfl | hw
        · exact absurd hwu hv
        · exact ⟨w, hw, hwu⟩
      obtain ⟨pre, vote, post, hs, hu, hpre⟩ := ih hrest
      refine ⟨v :: pre, vote, post, by simp [hs], hu, ?_⟩
      intro w hw
      rcases List.mem_cons.mp hw with rfl | hw
      · exact hv
      · exact hpre w hw

/-- With pairwise-distinct voters, two entries of the list by the same voter are
the same entry. -/
theorem DistinctVoters.eq_of_mem {votes : List Vote} (hd : DistinctVoters votes)
    {v w : Vote} (hv : v ∈ votes) (hw : w ∈ votes) (h : v.UserID = w.UserID) : v = w := by
  unfold DistinctVoters at hd
  exact List.inj_on_of_nodup_map hd hv hw h

/-- With pairwise-distinct voters, the list splits at a given entry and no entry
before it is by the same voter. -/
theorem DistinctVoters.split_at {votes : List Vote} (hd : DistinctVoters votes)
    {vote : Vote} (hm : vote ∈ votes) :
    ∃ pre post, votes = pre ++ vote :: post ∧ ∀ v ∈ pre, v.UserID ≠ vote.UserID := by
  obtain ⟨pre, w, post, hs, hu, hpre⟩ :=
    exists_first_split vote.UserID ⟨vote, hm, rfl⟩
  have hw : w ∈ votes := by rw [hs]; simp
  have : w = vote := hd.eq_of_mem hw hm hu
  subst this
  exact ⟨pre, post, hs, hpre⟩

/-! ## Lemmas on the percentage -/

theorem countUpvotes_foldl (votes : List Vote) (acc : Int) :
    votes.foldl (fun upvotes vote => if vote.Vote = 1 then upvotes + 1 else upvotes) acc
      = acc + (votes.countP fun v => decide (v.Vote = 1) : Nat) := by
  induction votes generalizing acc with
  | nil => simp
  | cons v rest ih =>
    by_cases hv : v.Vote = 1
    · simp [List.foldl, List.countP_cons, hv, ih]; ring
    · simp [List.foldl, List.countP_cons, hv, ih]

/-- The counting loop returns the number of entries whose `Vote` is `1`. -/
theorem countUpvotes_eq_countP (votes : List Vote) :
    countUpvotes votes = (votes.countP fun v => decide (v.Vote = 1) : Nat) := by
  simp [countUpvotes, countUpvotes_foldl]

theorem UpvotePercentage_of_ne_nil (p : Post) (h : p.Votes ≠ []) :
    (RecalculatePercentage p).UpvotePercentage
      = (100 * (p.Votes.countP fun v => decide (v.Vote = 1) : Nat)) / (p.Votes.length : Int) := by
  have hlen : p.Votes.length ≠ 0 := by simpa using h
  simp only [RecalculatePercentage, hlen, if_false, countUpvotes_eq_countP]
  exact Int.tdiv_eq_ediv (by positivity) (by positivity)

/-! ## Lemmas on the voters of a list -/

/-- The converse of `findVoter_eq_none`: a scan that runs to the end met no entry
by the voter. -/
theorem not_mem_of_findVoter_eq_none {userID : String} {votes : List Vote}
    (h : findVoter userID votes = none) : ∀ v ∈ votes, v.UserID ≠ userID := by
  induction votes with
  | nil => simp
  | cons v rest ih =>
    by_cases hv : v.UserID = userID
    · simp [findVoter, hv] at h
    · have hrest : findVoter userID rest = none := by simpa [findVoter, hv] using h
      intro w hw
      rcases List.mem_cons.mp hw with rfl | hw
      · exact hv
      · exact ih hrest w hw

/-- Assigning the field `Vote` of an entry does not change who voted. -/
theorem map_UserID_setVoteAt (votes : List Vote) (i : Nat) (d : Int) :
    (setVoteAt votes i d).map Vote.UserID = votes.map Vote.UserID := by
  induction votes generalizing i with
  | nil => rfl
  | cons v rest ih =>
    cases i with
    | zero => rfl
    | succ i => simp [setVoteAt, ih]

theorem DistinctVoters.setVoteAt {votes : List Vote} (hd : DistinctVoters votes)
    (i : Nat) (d : Int) : DistinctVoters (setVoteAt votes i d) := by
  unfold DistinctVoters at *
  rw [map_UserID_setVoteAt]
  exact hd

theorem DistinctVoters.append_new {votes : List Vote} (hd : DistinctVoters votes)
    {userID : String} (h : findVoter userID votes = none) (d : Int) :
    DistinctVoters (votes ++ [{ UserID := userID, Vote := d }]) := by
  unfold DistinctVoters at *
  have hnot := not_mem_of_findVoter_eq_none h
  rw [List.map_append, List.nodup_append]
  refine ⟨hd, by simp, ?_⟩
  intro a ha hb
  simp only [List.map_cons, List.map_nil, List.mem_singleton] at hb
  obtain ⟨v, hv, hva⟩ := List.mem_map.mp ha
  exact hnot v hv (hva.trans hb)

theorem DistinctVoters.remove {votes : List Vote} (hd : DistinctVoters votes) (i : Nat) :
    DistinctVoters (votes.take i ++ votes.drop (i + 1)) := by
  unfold DistinctVoters at *
  have hsub : (votes.take i ++ votes.drop (i + 1)).Sublist votes := by
    rw [← List.eraseIdx_eq_take_drop_succ]
    exact List.eraseIdx_sublist votes i
  exact hd.sublist (hsub.map _)

theorem DistinctVoters.Upvote {p : Post} (hd : DistinctVoters p.Votes) (u : String) :
    DistinctVoters (Upvote p u).Votes := by
  unfold Redditclone.Upvote
  split
  · exact hd.setVoteAt _ _
  · next h => exact hd.append_new h 1

theorem DistinctVoters.Downvote {p : Post} (hd : DistinctVoters p.Votes) (u : String) :
    DistinctVoters (Downvote p u).Votes := by
  unfold Redditclone.Downvote
  split
  · exact hd.setVoteAt _ _
  · next h => exact hd.append_new h (-1)

theorem DistinctVoters.Unvote {p : Post} (hd : DistinctVoters p.Votes) (u : String) :
    DistinctVoters (Unvote p u).Votes := by
  unfold Redditclone.Unvote
  split
  · exact hd.remove _
  · exact hd

theorem DistinctVoters.applyOps {p : Post} (hd : DistinctVoters p.Votes) (ops : List VoteOp) :
    DistinctVoters (applyOps p ops).Votes := by
  induction ops generalizing p with
  | nil => exact hd
  | cons op rest ih =>
    have hstep : DistinctVoters (applyOp p op).Votes := by
      cases op with
      | upvote u => exact hd.Upvote u
      | downvote u => exact hd.Downvote u
      | unvote u => exact hd.Unvote u
    exact ih hstep

theorem IsNewPost.Votes_eq_nil {p : Post} (h : IsNewPost p) : p.Votes = [] := by
  rcases h with ⟨_, _, _, _, rfl⟩ | ⟨_, _, _, _, rfl⟩ <;> rfl

/-! ## The vote methods, case by case -/

/-- C1: for a voter with no entry in `p.Votes`, `Upvote` appends `{u, +1}` at
the end of `Votes`, adds 1 to `Score` and leaves every other field as it was. -/
theorem Upvote_new_voter (p : Post) (u : String) (h : ∀ v ∈ p.Votes, v.UserID ≠ u) :
    Upvote p u = { p with Votes := p.Votes ++ [{ UserID := u, Vote := 1 }], Score := p.Score + 1 } := by
  simp [Upvote, findVoter_eq_none h]

theorem Upvote_new_voter_witness :
    Upvote samplePost "bob" = { samplePost with Votes := [⟨"bob", 1⟩], Score := 1 } :=
  Upvote_new_voter samplePost "bob" (by decide)

/-- C2: with pairwise-distinct voters and an entry `{u, -1}` in `p.Votes`,
`Upvote` turns that entry into `{u, +1}` in place, adds exactly 2 to `Score`,
keeps the length of `Votes`, and leaves the entries before and after it, and
every other field, as they were. -/
theorem Upvote_flips_downvote (p : Post) (u : String) (hd : DistinctVoters p.Votes)
    (hm : ({ UserID := u, Vote := -1 } : Vote) ∈ p.Votes) :
    ∃ pre post, p.Votes = pre ++ { UserID := u, Vote := -1 } :: post ∧
      Upvote p u = { p with Votes := pre ++ { UserID := u, Vote := 1 } :: post,
                            Score := p.Score + 2 } ∧
      (Upvote p u).Votes.length = p.Votes.length := by
  obtain ⟨pre, post, hs, hpre⟩ := hd.split_at hm
  have hf := findVoter_split pre ⟨u, -1⟩ post hpre rfl
  have hset := setVoteAt_split pre ⟨u, -1⟩ post 1
  refine ⟨pre, post, hs, ?_, ?_⟩
  · simp only [Upvote, hs, hf, hset]
  · simp only [Upvote, hs, hf, hset]; simp

theorem Upvote_flips_downvote_witness :
    ∃ pre post, (Downvote samplePost "bob").Votes = pre ++ { UserID := "bob", Vote := -1 } :: post ∧
      Upvote (Downvote samplePost "bob") "bob" =
        { Downvote samplePost "bob" with
            Votes := pre ++ { UserID := "bob", Vote := 1 } :: post,
            Score := (Downvote samplePost "bob").Score + 2 } ∧
      (Upvote (Downvote samplePost "bob") "bob").Votes.length
        = (Downvote samplePost "bob").Votes.length :=
  Upvote_flips_downvote (Downvote samplePost "bob") "bob" (by decide) (by decide)

/-- C3, the code at the failing input: a second `Upvote` by a voter whose entry
is already `{u, +1}` leaves `Votes` as it was but raises `Score` from 1 to 3. -/
theorem Upvote_repeated_adds_two :
    ({ UserID := "bob", Vote := 1 } : Vote) ∈ (Upvote samplePost "bob").Votes ∧
    (Upvote (Upvote samplePost "bob") "bob").Votes = (Upvote samplePost "bob").Votes ∧
    (Upvote samplePost "bob").Score = 1 ∧
    (Upvote (Upvote samplePost "bob") "bob").Score = 3 := by
  decide

/-- C4: with pairwise-distinct voters, `Downvote` turns an entry `{u, +1}` into
`{u, -1}` in place and subtracts 2 from `Score`; for a voter with no entry it
appends `{u, -1}` at the end and subtracts 1 from `Score`; in both cases every
other entry and every other field is as it was. -/
theorem Downvote_symmetric (p : Post) (u : String) (hd : DistinctVoters p.Votes) :
    (({ UserID := u, Vote := 1 } : Vote) ∈ p.Votes →
      ∃ pre post, p.Votes = pre ++ { UserID := u, Vote := 1 } :: post ∧
        Downvote p u = { p with Votes := pre ++ { UserID := u, Vote := -1 } :: post,
                                Score := p.Score - 2 }) ∧
    ((∀ v ∈ p.Votes, v.UserID ≠ u) →
      Downvote p u = { p with Votes := p.Votes ++ [{ UserID := u, Vote := -1 }],
                              Score := p.Score - 1 }) := by
  constructor
  · intro hm
    obtain ⟨pre, post, hs, hpre⟩ := hd.split_at hm
    have hf := findVoter_split pre ⟨u, 1⟩ post hpre rfl
    have hset := setVoteAt_split pre ⟨u, 1⟩ post (-1)
    exact ⟨pre, post, hs, by simp only [Downvote, hs, hf, hset]⟩
  · intro h
    simp [Downvote, findVoter_eq_none h]

theorem Downvote_symmetric_witness :
    (∃ pre post, (Upvote samplePost "bob").Votes = pre ++ { UserID := "bob", Vote := 1 } :: post ∧
      Downvote (Upvote samplePost "bob") "bob" =
        { Upvote samplePost "bob" with
            Votes := pre ++ { UserID := "bob", Vote := -1 } :: post,
            Score := (Upvote samplePost "bob").Score - 2 }) ∧
    Downvote (Upvote samplePost "bob") "carol" =
      { Upvote samplePost "bob" with
          Votes := (Upvote samplePost "bob").Votes ++ [{ UserID := "carol", Vote := -1 }],
          Score := (Upvote samplePost "bob").Score - 1 } :=
  ⟨(Downvote_symmetric (Upvote samplePost "bob") "bob" (by decide)).1 (by decide),
   (Downvote_symmetric (Upvote samplePost "bob") "carol" (by decide)).2 (by decide)⟩

/-- The effect of `Unvote` on a vote list split at the first entry by the voter:
that entry goes, the entries before and after it stay in their order, and its
stored direction is subtracted from `Score`. -/
theorem Unvote_removes_first (p : Post) (u : String) (d : Int) (pre post : List Vote)
    (hs : p.Votes = pre ++ { UserID := u, Vote := d } :: post)
    (hpre : ∀ v ∈ pre, v.UserID ≠ u) :
    Unvote p u = { p with Votes := pre ++ post, Score := p.Score - d } := by
  have hf := findVoter_split pre ⟨u, d⟩ post hpre rfl
  have hrm := remove_split pre ⟨u, d⟩ post
  simp only [Unvote, hs, hf, hrm]

/-- C5: for a post that keeps the vote invariant (at most one vote per voter)
and whose `Votes` contains an entry by voter `u` with stored direction `d`,
`Unvote` removes exactly that entry, which is the first entry by `u`, keeps all
other entries in their original order, yields `Score = p.Score - d`, and leaves
every other field as it was. -/
theorem Unvote_removes_entry (p : Post) (u : String) (d : Int)
    (hd : DistinctVoters p.Votes) (hm : ({ UserID := u, Vote := d } : Vote) ∈ p.Votes) :
    ∃ pre post, p.Votes = pre ++ { UserID := u, Vote := d } :: post ∧
      (∀ v ∈ pre, v.UserID ≠ u) ∧
      Unvote p u = { p with Votes := pre ++ post, Score := p.Score - d } := by
  obtain ⟨pre, post, hs, hpre⟩ := hd.split_at hm
  exact ⟨pre, post, hs, hpre, Unvote_removes_first p u d pre post hs hpre⟩

theorem Unvote_removes_entry_witness :
    ∃ pre post,
      (applyOps samplePost [.upvote "bob", .downvote "carol", .upvote "dave"]).Votes
        = pre ++ { UserID := "carol", Vote := -1 } :: post ∧
      (∀ v ∈ pre, v.UserID ≠ "carol") ∧
      Unvote (applyOps samplePost [.upvote "bob", .downvote "carol", .upvote "dave"]) "carol" =
        { applyOps samplePost [.upvote "bob", .downvote "carol", .upvote "dave"] with
            Votes := pre ++ post,
            Score := (applyOps samplePost [.upvote "bob", .downvote "carol", .upvote "dave"]).Score
              - (-1) } :=
  Unvote_removes_entry (applyOps samplePost [.upvote "bob", .downvote "carol", .upvote "dave"])
    "carol" (-1) (by decide) (by decide)

/-- C6: for a voter with no entry in `p.Votes`, `Unvote` returns the post as it
was: `Score`, `Votes` and every other field are unchanged. -/
theorem Unvote_absent_voter (p : Post) (u : String) (h : ∀ v ∈ p.Votes, v.UserID ≠ u) :
    Unvote p u = p := by
  simp [Unvote, findVoter_eq_none h]

theorem Unvote_absent_voter_witness : Unvote (Upvote samplePost "bob") "carol" = Upvote samplePost "bob" :=
  Unvote_absent_voter (Upvote samplePost "bob") "carol" (by decide)

/-- C7: `RecalculatePercentage` sets `UpvotePercentage` to 0 when `Votes` is
empty and otherwise to the floor of 100 times the number of entries with
`Vote == +1` over the number of entries, and changes no other field. -/
theorem RecalculatePercentage_floor (p : Post) :
    RecalculatePercentage p =
      { p with UpvotePercentage :=
          if p.Votes = [] then 0
          else ⌊(100 * (p.Votes.countP fun v => decide (v.Vote = 1) : ℚ)) / (p.Votes.length : ℚ)⌋ } := by
  by_cases h : p.Votes = []
  · simp [RecalculatePercentage, h]
  · have hpct := UpvotePercentage_of_ne_nil p h
    have hfloor := Rat.floor_intCast_div_natCast
      (100 * (p.Votes.countP fun v => decide (v.Vote = 1) : Nat)) p.Votes.length
    push_cast at hfloor
    have hlen : p.Votes.length ≠ 0 := by simpa using h
    have hrec : RecalculatePercentage p =
        { p with UpvotePercentage := (RecalculatePercentage p).UpvotePercentage } := by
      simp [RecalculatePercentage, hlen]
    rw [hrec, hpct, if_neg h, hfloor]

/-- C8: whatever the vote list holds, the percentage `RecalculatePercentage`
stores lies between 0 and 100. -/
theorem UpvotePercentage_bounds (p : Post) :
    0 ≤ (RecalculatePercentage p).UpvotePercentage ∧
    (RecalculatePercentage p).UpvotePercentage ≤ 100 := by
  by_cases h : p.Votes = []
  · simp [RecalculatePercentage, h]
  · rw [UpvotePercentage_of_ne_nil p h]
    have hlen : 0 < p.Votes.length := List.length_pos.mpr h
    have hcount : (p.Votes.countP fun v => decide (v.Vote = 1)) ≤ p.Votes.length :=
      List.countP_le_length _
    constructor
    · exact Int.ediv_nonneg (by positivity) (by positivity)
    · apply Int.ediv_le_of_le_mul (by exact_mod_cast hlen)
      have : ((p.Votes.countP fun v => decide (v.Vote = 1) : Nat) : Int) ≤ (p.Votes.length : Int) := by
        exact_mod_cast hcount
      linarith

/-- C9: on a post with no votes and score 0, `Upvote` by `u` followed by
`RecalculatePercentage` gives score 1, percentage 100 and votes `[{u, +1}]`;
`Downvote` by `u` followed by `RecalculatePercentage` on the result gives
score -1, percentage 0 and votes `[{u, -1}]`. -/
theorem upvote_then_downvote_scenario (p : Post) (u : String)
    (hv : p.Votes = []) (hs : p.Score = 0) :
    (RecalculatePercentage (Upvote p u)).Score = 1 ∧
    (RecalculatePercentage (Upvote p u)).UpvotePercentage = 100 ∧
    (RecalculatePercentage (Upvote p u)).Votes = [{ UserID := u, Vote := 1 }] ∧
    (RecalculatePercentage (Downvote (RecalculatePercentage (Upvote p u)) u)).Score = -1 ∧
    (RecalculatePercentage (Downvote (RecalculatePercentage (Upvote p u)) u)).UpvotePercentage = 0 ∧
    (RecalculatePercentage (Downvote (RecalculatePercentage (Upvote p u)) u)).Votes
      = [{ UserID := u, Vote := -1 }] := by
  have h1 : RecalculatePercentage (Upvote p u) =
      { p with Votes := [{ UserID := u, Vote := 1 }], Score := 1, UpvotePercentage := 100 } := by
    simp [Upvote, RecalculatePercentage, findVoter, countUpvotes, hv, hs, Int.tdiv]
  have h2 : RecalculatePercentage (Downvote (RecalculatePercentage (Upvote p u)) u) =
      { p with Votes := [{ UserID := u, Vote := -1 }], Score := -1, UpvotePercentage := 0 } := by
    rw [h1]
    simp [Downvote, RecalculatePercentage, findVoter, setVoteAt, countUpvotes, Int.tdiv]
  rw [h2, h1]
  simp

theorem upvote_then_downvote_scenario_witness :
    (RecalculatePercentage (Upvote samplePost "bob")).Score = 1 ∧
    (RecalculatePercentage (Upvote samplePost "bob")).UpvotePercentage = 100 ∧
    (RecalculatePercentage (Upvote samplePost "bob")).Votes = [{ UserID := "bob", Vote := 1 }] ∧
    (RecalculatePercentage (Downvote (RecalculatePercentage (Upvote samplePost "bob")) "bob")).Score = -1 ∧
    (RecalculatePercentage (Downvote (RecalculatePercentage (Upvote samplePost "bob")) "bob")).UpvotePercentage = 0 ∧
    (RecalculatePercentage (Downvote (RecalculatePercentage (Upvote samplePost "bob")) "bob")).Votes
      = [{ UserID := "bob", Vote := -1 }] :=
  upvote_then_downvote_scenario samplePost "bob" rfl rfl

/-- C10: at most one vote per voter is an invariant: when the voters of
`p.Votes` are pairwise distinct, so are those of `Upvote p u`, `Downvote p u`
and `Unvote p u`; hence every post reached from a newly constructed post by a
sequence of these calls has pairwise-distinct voters. -/
theorem DistinctVoters_invariant :
    (∀ (p : Post) (u : String), DistinctVoters p.Votes →
      DistinctVoters (Upvote p u).Votes ∧ DistinctVoters (Downvote p u).Votes ∧
        DistinctVoters (Unvote p u).Votes) ∧
    (∀ (p : Post) (ops : List VoteOp), IsNewPost p → DistinctVoters (applyOps p ops).Votes) := by
  refine ⟨fun p u hd => ⟨hd.Upvote u, hd.Downvote u, hd.Unvote u⟩, fun p ops hnew => ?_⟩
  have hd : DistinctVoters p.Votes := by
    rw [hnew.Votes_eq_nil]
    exact List.nodup_nil
  exact hd.applyOps ops

theorem DistinctVoters_invariant_witness :
    (DistinctVoters (Upvote (Downvote samplePost "bob") "bob").Votes ∧
      DistinctVoters (Downvote (Downvote samplePost "bob") "bob").Votes ∧
      DistinctVoters (Unvote (Downvote samplePost "bob") "bob").Votes) ∧
    DistinctVoters
      (applyOps samplePost [.upvote "bob", .downvote "carol", .upvote "bob", .unvote "carol"]).Votes :=
  ⟨DistinctVoters_invariant.1 (Downvote samplePost "bob") "bob" (by decide),
   DistinctVoters_invariant.2 samplePost _ (Or.inl ⟨_, _, _, _, rfl⟩)⟩

/-! ## Lemmas on the repository scans -/

theorem slicerepo.findPost_eq_none {postID : String} {posts : List Post}
    (h : ∀ q ∈ posts, q.ID ≠ postID) : slicerepo.findPost postID posts = none := by
  induction posts with
  | nil => rfl
  | cons q rest ih =>
    have hq : q.ID ≠ postID := h q (List.mem_cons_self _ _)
    have hrest : ∀ w ∈ rest, w.ID ≠ postID := fun w hw => h w (List.mem_cons_of_mem _ hw)
    simp [slicerepo.findPost, hq, ih hrest]

theorem slicerepo.findPost_split {postID : String} (pre : List Post) (post : Post)
    (rest : List Post) (hpre : ∀ q ∈ pre, q.ID ≠ postID) (hpost : post.ID = postID) :
    slicerepo.findPost postID (pre ++ post :: rest) = some (pre.length, post) := by
  induction pre with
  | nil => simp [slicerepo.findPost, hpost]
  | cons q more ih =>
    have hq : q.ID ≠ postID := hpre q (List.mem_cons_self _ _)
    have hmore : ∀ w ∈ more, w.ID ≠ postID := fun w hw => hpre w (List.mem_cons_of_mem _ hw)
    simp [slicerepo.findPost, hq, ih hmore]

theorem slicerepo.findComment_split {commentID : String} (pre : List Comment) (comment : Comment)
    (rest : List Comment) (hpre : ∀ c ∈ pre, c.ID ≠ commentID) (hc : comment.ID = commentID) :
    slicerepo.findComment commentID (pre ++ comment :: rest) = some (pre.length, comment) := by
  induction pre with
  | nil => simp [slicerepo.findComment, hc]
  | cons c more ih =>
    have hc1 : c.ID ≠ commentID := hpre c (List.mem_cons_self _ _)
    have hmore : ∀ w ∈ more, w.ID ≠ commentID := fun w hw => hpre w (List.mem_cons_of_mem _ hw)
    simp [slicerepo.findComment, hc1, ih hmore]

theorem slicerepo.modifyAt_split (pre : List Post) (post : Post) (rest : List Post)
    (f : Post → Post) :
    slicerepo.modifyAt (pre ++ post :: rest) pre.length f = pre ++ f post :: rest := by
  induction pre with
  | nil => rfl
  | cons q more ih => simp [slicerepo.modifyAt, ih]

theorem slicerepo.remove_post_split (pre : List Post) (post : Post) (rest : List Post) :
    (pre ++ post :: rest).take pre.length ++ (pre ++ post :: rest).drop (pre.length + 1)
      = pre ++ rest := by
  induction pre with
  | nil => simp
  | cons q more ih => simp

theorem slicerepo.GetPostByID_of_stored {posts : List Post} {postID : String} {post : Post}
    (h : StoredUnder posts postID post) : slicerepo.GetPostByID posts postID = .ok post := by
  obtain ⟨pre, rest, hs, hid, hpre⟩ := h
  simp [slicerepo.GetPostByID, hs, slicerepo.findPost_split pre post rest hpre hid]

/-- The service's vote calls on a stored post: the copy after the vote method
and `RecalculatePercentage` is returned, and its three vote fields are written
into the stored post. -/
theorem service.votePost_split (vote : Post → String → Post) (pre : List Post) (p : Post)
    (rest : List Post) (postID : String) (usr : User)
    (hid : p.ID = postID) (hpre : ∀ q ∈ pre, q.ID ≠ postID) :
    service.votePost vote (pre ++ p :: rest) postID usr =
      (.ok (RecalculatePercentage (vote p usr.ID)),
       pre ++ { p with Score := (RecalculatePercentage (vote p usr.ID)).Score,
                       UpvotePercentage := (RecalculatePercentage (vote p usr.ID)).UpvotePercentage,
                       Votes := (RecalculatePercentage (vote p usr.ID)).Votes } :: rest) := by
  have hf := slicerepo.findPost_split pre p rest hpre hid
  simp [service.votePost, slicerepo.GetPostByID, slicerepo.UpdateVotes, hf,
    slicerepo.modifyAt_split]

/-! ## Score, ownership and persistence -/

/-- C11, the code at the failing input: two `Upvote` calls by the same voter on
a newly constructed post leave the single entry `{bob, +1}`, whose directions sum
to 1, while `Score` is 3. -/
theorem Score_diverges_from_votes :
    IsNewPost samplePost ∧
    (applyOps samplePost [.upvote "bob", .upvote "bob"]).Votes = [{ UserID := "bob", Vote := 1 }] ∧
    sumVotes (applyOps samplePost [.upvote "bob", .upvote "bob"]).Votes = 1 ∧
    (applyOps samplePost [.upvote "bob", .upvote "bob"]).Score = 3 :=
  ⟨Or.inl ⟨_, _, _, _, rfl⟩, by decide, by decide, by decide⟩

/-- C12 as stated fails when two stored posts carry the same identifier:
`collidingAuthors` holds a post by alice and then a post by bob under one
identifier, so a post whose author id differs from alice's exists under it, yet
`DeletePost` by alice reads the first of the two, succeeds and removes it. -/
theorem DeletePost_colliding_authors_counterexample :
    (∃ p ∈ collidingAuthors, p.ID = samplePost.ID ∧ p.Author.ID ≠ alice.ID) ∧
    service.DeletePost collidingAuthors samplePost.ID alice
      = (.ok (), [{ samplePost with Author := ⟨"b2", "bob"⟩ }]) ∧
    service.DeletePost collidingAuthors samplePost.ID alice
      ≠ (.error (.NotOwner alice.Username), collidingAuthors) := by
  refine ⟨⟨{ samplePost with Author := ⟨"b2", "bob"⟩ }, by decide, rfl, by decide⟩,
    by decide, by decide⟩

/-- C12, amended: when the post stored under `postID`, the first stored post
with that identifier, has an author id different from the actor's id,
`service.DeletePost` fails with `NotOwner` carrying the actor's username and the
repository state is the one before the call. -/
theorem DeletePost_not_owner (posts : List Post) (postID : String) (post : Post) (usr : User)
    (h : StoredUnder posts postID post) (hne : post.Author.ID ≠ usr.ID) :
    service.DeletePost posts postID usr = (.error (.NotOwner usr.Username), posts) := by
  simp [service.DeletePost, slicerepo.GetPostByID_of_stored h, hne]

theorem DeletePost_not_owner_witness :
    service.DeletePost [otherPost, samplePost] samplePost.ID bob
      = (.error (.NotOwner "bob"), [otherPost, samplePost]) :=
  DeletePost_not_owner [otherPost, samplePost] samplePost.ID samplePost bob
    ⟨[otherPost], [], rfl, rfl, by decide⟩ (by decide)

/-- C13 as stated fails when two comments of a post carry the same identifier:
the post of `collidingComments` holds a comment by bob and then `sampleComment`,
by alice, under one identifier, so a comment whose author id differs from bob's
exists under it, yet `DeleteComment` by bob reads the first of the two, succeeds,
removes it and changes the stored post. -/
theorem DeleteComment_colliding_counterexample :
    (∃ p ∈ collidingComments, p.ID = samplePost.ID ∧
      ∃ c ∈ p.Comments, c.ID = sampleComment.ID ∧ c.Author.ID ≠ bob.ID) ∧
    service.DeleteComment collidingComments samplePost.ID sampleComment.ID bob
      = (.ok { samplePost with Comments := [sampleComment] },
         [{ samplePost with Comments := [sampleComment] }]) ∧
    (service.DeleteComment collidingComments samplePost.ID sampleComment.ID bob).2
      ≠ collidingComments := by
  refine ⟨⟨_, List.mem_cons_self _ _, rfl, sampleComment, by decide, rfl, by decide⟩,
    by decide, by decide⟩

/-- C13, amended: when the comment stored under `commentID`, the first comment
with that identifier, in the post stored under `postID`, the first stored post
with that identifier, has an author id different from the actor's id,
`service.DeleteComment` fails with `NotOwner` and the repository state is the
one before the call, so the post still holds the comment. -/
theorem DeleteComment_not_owner (posts : List Post) (postID commentID : String) (post : Post)
    (comment : Comment) (usr : User) (hp : StoredUnder posts postID post)
    (hc : CommentStoredUnder post.Comments commentID comment)
    (hne : comment.Author.ID ≠ usr.ID) :
    service.DeleteComment posts postID commentID usr = (.error (.NotOwner usr.Username), posts) ∧
    post ∈ (service.DeleteComment posts postID commentID usr).2 ∧ comment ∈ post.Comments := by
  obtain ⟨pre, rest, hs, hid, hpre⟩ := hp
  obtain ⟨cpre, crest, hcs, hcid, hcpre⟩ := hc
  have hf := slicerepo.findPost_split pre post rest hpre hid
  have hfc := slicerepo.findComment_split cpre comment crest hcpre hcid
  have hcall : service.DeleteComment posts postID commentID usr
      = (.error (.NotOwner usr.Username), posts) := by
    simp [service.DeleteComment, slicerepo.GetCommentByID, hs, hf, hcs, hfc, hne]
  refine ⟨hcall, ?_, ?_⟩
  · rw [hcall, hs]; simp
  · rw [hcs]; simp

theorem DeleteComment_not_owner_witness :
    service.DeleteComment [samplePost, otherPost] otherPost.ID sampleComment.ID bob
      = (.error (.NotOwner "bob"), [samplePost, otherPost]) ∧
    otherPost ∈ (service.DeleteComment [samplePost, otherPost] otherPost.ID sampleComment.ID bob).2 ∧
    sampleComment ∈ otherPost.Comments :=
  DeleteComment_not_owner [samplePost, otherPost] otherPost.ID sampleComment.ID otherPost
    sampleComment bob ⟨[samplePost], [], rfl, rfl, by decide⟩ ⟨[], [], rfl, rfl, by decide⟩
    (by decide)

/-- C14 as stated fails when two stored posts carry the same identifier:
`collidingPosts` contains a post with the identifier whose author is alice,
`DeletePost` by alice succeeds and removes the first of the two, and the
following `GetPostByID` returns the second one instead of failing. -/
theorem DeletePost_colliding_counterexample :
    (∃ p ∈ collidingPosts, p.ID = samplePost.ID ∧ p.Author.ID = alice.ID) ∧
    (service.DeletePost collidingPosts samplePost.ID alice).1 = .ok () ∧
    (service.GetPostByID (service.DeletePost collidingPosts samplePost.ID alice).2 samplePost.ID).1
      = .ok { samplePost with Title := "second", Views := 1 } ∧
    (service.GetPostByID (service.DeletePost collidingPosts samplePost.ID alice).2 samplePost.ID).1
      ≠ .error (.PostNotFoundByID samplePost.ID) := by
  refine ⟨⟨samplePost, by decide, rfl, rfl⟩, by decide, by decide, by decide⟩

/-- C14, amended: when exactly one stored post has identifier `id` and its
author id equals the actor's id, `service.DeletePost` succeeds and removes that
post, keeping the others in order, and `service.GetPostByID` on the resulting
state fails with `PostNotFoundByID{id}`. -/
theorem DeletePost_then_not_found (pre rest : List Post) (post : Post) (id : String) (usr : User)
    (hid : post.ID = id) (hpre : ∀ q ∈ pre, q.ID ≠ id) (hrest : ∀ q ∈ rest, q.ID ≠ id)
    (hown : post.Author.ID = usr.ID) :
    service.DeletePost (pre ++ post :: rest) id usr = (.ok (), pre ++ rest) ∧
    service.GetPostByID (pre ++ rest) id = (.error (.PostNotFoundByID id), pre ++ rest) := by
  have hf := slicerepo.findPost_split pre post rest hpre hid
  have hnone : slicerepo.findPost id (pre ++ rest) = none := by
    apply slicerepo.findPost_eq_none
    intro q hq
    rcases List.mem_append.mp hq with hq | hq
    · exact hpre q hq
    · exact hrest q hq
  constructor
  · simp [service.DeletePost, slicerepo.GetPostByID, slicerepo.DeletePost, hf, hown,
      slicerepo.remove_post_split]
  · simp [service.GetPostByID, slicerepo.GetPostByIDAndUpdateViews, hnone]

theorem DeletePost_then_not_found_witness :
    service.DeletePost ([otherPost] ++ samplePost :: []) samplePost.ID alice
      = (.ok (), [otherPost] ++ []) ∧
    service.GetPostByID ([otherPost] ++ []) samplePost.ID
      = (.error (.PostNotFoundByID samplePost.ID), [otherPost] ++ []) :=
  DeletePost_then_not_found [otherPost] [] samplePost samplePost.ID alice rfl (by decide)
    (by simp) rfl

/-- C15: for the post `p` stored under `postID` and every actor, `UpvotePost`
(resp. `DownvotePost`, `UnvotePost`) succeeds and returns
`RecalculatePercentage (Upvote p usr.ID)` (resp. `Downvote`, `Unvote`); in the
state after the call the post at the place of `p` is `p` with `Score`,
`UpvotePercentage` and `Votes` replaced by the returned ones, and the posts
before and after it are the same. -/
theorem votePost_persists (posts : List Post) (postID : String) (p : Post) (usr : User)
    (h : StoredUnder posts postID p) :
    ∃ pre rest, posts = pre ++ p :: rest ∧ (∀ q ∈ pre, q.ID ≠ postID) ∧
      service.UpvotePost posts postID usr =
        (.ok (RecalculatePercentage (Upvote p usr.ID)),
         pre ++ { p with Score := (RecalculatePercentage (Upvote p usr.ID)).Score,
                         UpvotePercentage := (RecalculatePercentage (Upvote p usr.ID)).UpvotePercentage,
                         Votes := (RecalculatePercentage (Upvote p usr.ID)).Votes } :: rest) ∧
      service.DownvotePost posts postID usr =
        (.ok (RecalculatePercentage (Downvote p usr.ID)),
         pre ++ { p with Score := (RecalculatePercentage (Downvote p usr.ID)).Score,
                         UpvotePercentage := (RecalculatePercentage (Downvote p usr.ID)).UpvotePercentage,
                         Votes := (RecalculatePercentage (Downvote p usr.ID)).Votes } :: rest) ∧
      service.UnvotePost posts postID usr =
        (.ok (RecalculatePercentage (Unvote p usr.ID)),
         pre ++ { p with Score := (RecalculatePercentage (Unvote p usr.ID)).Score,
                         UpvotePercentage := (RecalculatePercentage (Unvote p usr.ID)).UpvotePercentage,
                         Votes := (RecalculatePercentage (Unvote p usr.ID)).Votes } :: rest) := by
  obtain ⟨pre, rest, hs, hid, hpre⟩ := h
  refine ⟨pre, rest, hs, hpre, ?_, ?_, ?_⟩
  · rw [hs]; exact service.votePost_split Upvote pre p rest postID usr hid hpre
  · rw [hs]; exact service.votePost_split Downvote pre p rest postID usr hid hpre
  · rw [hs]; exact service.votePost_split Unvote pre p rest postID usr hid hpre

theorem votePost_persists_witness :
    ∃ pre rest, [otherPost, samplePost] = pre ++ samplePost :: rest ∧
      (∀ q ∈ pre, q.ID ≠ samplePost.ID) ∧
      service.UpvotePost [otherPost, samplePost] samplePost.ID bob =
        (.ok (RecalculatePercentage (Upvote samplePost bob.ID)),
         pre ++ { samplePost with
                    Score := (RecalculatePercentage (Upvote samplePost bob.ID)).Score,
                    UpvotePercentage := (RecalculatePercentage (Upvote samplePost bob.ID)).UpvotePercentage,
                    Votes := (RecalculatePercentage (Upvote samplePost bob.ID)).Votes } :: rest) ∧
      service.DownvotePost [otherPost, samplePost] samplePost.ID bob =
        (.ok (RecalculatePercentage (Downvote samplePost bob.ID)),
         pre ++ { samplePost with
                    Score := (RecalculatePercentage (Downvote samplePost bob.ID)).Score,
                    UpvotePercentage := (RecalculatePercentage (Downvote samplePost bob.ID)).UpvotePercentage,
                    Votes := (RecalculatePercentage (Downvote samplePost bob.ID)).Votes } :: rest) ∧
      service.UnvotePost [otherPost, samplePost] samplePost.ID bob =
        (.ok (RecalculatePercentage (Unvote samplePost bob.ID)),
         pre ++ { samplePost with
                    Score := (RecalculatePercentage (Unvote samplePost bob.ID)).Score,
                    UpvotePercentage := (RecalculatePercentage (Unvote samplePost bob.ID)).UpvotePercentage,
                    Votes := (RecalculatePercentage (Unvote samplePost bob.ID)).Votes } :: rest) :=
  votePost_persists [otherPost, samplePost] samplePost.ID samplePost bob
    ⟨[otherPost], [], rfl, rfl, by decide⟩

/-- C16: both constructors return a post with score 0, views 0, no votes, no
comments, percentage 0, the given identifier and author, and title, category and
type copied from the input; `NewTextPost` copies `Text` and leaves `URL` empty,
`NewURLPost` copies `URL` and leaves `Text` empty. -/
theorem NewPost_fields (postID : String) (text : TextPostInput) (url : URLPostInput)
    (author : Author) (now : String) :
    ((NewTextPost postID text author now).Score = 0 ∧
      (NewTextPost postID text author now).Views = 0 ∧
      (NewTextPost postID text author now).Votes = [] ∧
      (NewTextPost postID text author now).Comments = [] ∧
      (NewTextPost postID text author now).UpvotePercentage = 0 ∧
      (NewTextPost postID text author now).ID = postID ∧
      (NewTextPost postID text author now).Author = author ∧
      (NewTextPost postID text author now).Title = text.Title ∧
      (NewTextPost postID text author now).Category = text.Category ∧
      (NewTextPost postID text author now).«Type» = text.«Type» ∧
      (NewTextPost postID text author now).Text = text.Text ∧
      (NewTextPost postID text author now).URL = "") ∧
    ((NewURLPost postID url author now).Score = 0 ∧
      (NewURLPost postID url author now).Views = 0 ∧
      (NewURLPost postID url author now).Votes = [] ∧
      (NewURLPost postID url author now).Comments = [] ∧
      (NewURLPost postID url author now).UpvotePercentage = 0 ∧
      (NewURLPost postID url author now).ID = postID ∧
      (NewURLPost postID url author now).Author = author ∧
      (NewURLPost postID url author now).Title = url.Title ∧
      (NewURLPost postID url author now).Category = url.Category ∧
      (NewURLPost postID url author now).«Type» = url.«Type» ∧
      (NewURLPost postID url author now).URL = url.URL ∧
      (NewURLPost postID url author now).Text = "") := by
  refine ⟨⟨rfl, rfl, rfl, rfl, rfl, rfl, rfl, rfl, rfl, rfl, rfl, rfl⟩,
    ⟨rfl, rfl, rfl, rfl, rfl, rfl, rfl, rfl, rfl, rfl, rfl, rfl⟩⟩

/-! ## Lemmas on the identifier pattern -/

/-- A character of the class `[0-9a-f]`. -/
theorem hexid.class_any_iff (c : Char) :
    ([('0', '9'), ('a', 'f')].any fun r => decide (r.1 ≤ c ∧ c ≤ r.2)) = true
      ↔ ('0' ≤ c ∧ c ≤ '9') ∨ ('a' ≤ c ∧ c ≤ 'f') := by
  simp

theorem hexid.iterate_nil (f : Nat × List Char → List (Nat × List Char)) (n : Nat) :
    hexid.iterate f n [] = [] := by
  induction n with
  | zero => rfl
  | succ n ih => simpa [hexid.iterate] using ih

/-- The counted repetition of a class consumes exactly `n` characters of the
class, and matches in no other way. -/
theorem hexid.iterate_charClass (ranges : List (Char × Char)) (n pos : Nat) (rest : List Char) :
    hexid.iterate (hexid.matchEnds (.charClass ranges)) n [(pos, rest)] =
      if n ≤ rest.length ∧
          ∀ c ∈ rest.take n, (ranges.any fun r => decide (r.1 ≤ c ∧ c ≤ r.2)) = true
      then [(pos + n, rest.drop n)] else [] := by
  induction n generalizing pos rest with
  | zero => simp [hexid.iterate]
  | succ n ih =>
    cases rest with
    | nil => simp [hexid.iterate, hexid.matchEnds, hexid.iterate_nil]
    | cons c cs =>
      by_cases hc : (ranges.any fun r => decide (r.1 ≤ c ∧ c ≤ r.2)) = true
      · have hstep : hexid.matchEnds (.charClass ranges) (pos, c :: cs) = [(pos + 1, cs)] := by
          simp only [hexid.matchEnds, hc, if_true]
        simp only [hexid.iterate, List.flatMap_cons, List.flatMap_nil, List.append_nil, hstep, ih]
        simp only [List.length_cons, Nat.add_le_add_iff_right, List.take_succ_cons,
          List.mem_cons, forall_eq_or_imp, hc, true_and, List.drop_succ_cons]
        have : pos + 1 + n = pos + (n + 1) := by omega
        rw [this]
      · have hstep : hexid.matchEnds (.charClass ranges) (pos, c :: cs) = [] := by
          simp only [hexid.matchEnds, hc]; simp
        simp only [hexid.iterate, List.flatMap_cons, List.flatMap_nil, List.append_nil, hstep,
          hexid.iterate_nil]
        simp only [List.take_succ_cons, List.mem_cons, forall_eq_or_imp, hc]
        simp

theorem hexid.matchEnds_pattern (i : Nat) (l : List Char) :
    hexid.matchEnds hexid.pattern (i, l) =
      ((if i = 0 then [(i, l)] else []).flatMap fun st =>
        (hexid.iterate (hexid.matchEnds (.charClass [('0', '9'), ('a', 'f')])) 24 [st]).flatMap
          fun st1 => if st1.2.isEmpty then [(st1.1, st1.2)] else []) := by
  rfl

/-- The matches of the whole pattern from a given position: only position 0
can start one, and then the text has 24 characters of the class and nothing
after them. -/
theorem hexid.matchEnds_pattern_isEmpty (i : Nat) (l : List Char) :
    (hexid.matchEnds hexid.pattern (i, l)).isEmpty = false ↔
      i = 0 ∧ l.length = 24 ∧ ∀ c ∈ l, ('0' ≤ c ∧ c ≤ '9') ∨ ('a' ≤ c ∧ c ≤ 'f') := by
  rw [hexid.matchEnds_pattern]
  by_cases hi : i = 0
  · subst hi
    have hrep := hexid.iterate_charClass [('0', '9'), ('a', 'f')] 24 0 l
    simp only [if_true, List.flatMap_cons, List.flatMap_nil, List.append_nil]
    by_cases hcond : 24 ≤ l.length ∧
        ∀ c ∈ l.take 24, ([('0', '9'), ('a', 'f')].any fun r => decide (r.1 ≤ c ∧ c ≤ r.2)) = true
    · rw [if_pos hcond] at hrep
      rw [hrep]
      simp only [List.flatMap_cons, List.flatMap_nil, List.append_nil]
      constructor
      · intro h
        have hd : (l.drop 24).isEmpty = true := by
          by_contra hne
          rw [if_neg hne] at h
          exact Bool.noConfusion h
        have hlen : l.length = 24 := by
          have h1 := List.isEmpty_iff.mp hd
          have h2 := List.drop_eq_nil_iff.mp h1
          omega
        refine ⟨trivial, hlen, ?_⟩
        intro c hc
        have htake : l.take 24 = l := List.take_of_length_le (by omega)
        exact (hexid.class_any_iff c).mp (hcond.2 c (by rw [htake]; exact hc))
      · rintro ⟨-, hlen, -⟩
        have hd : l.drop 24 = [] := List.drop_eq_nil_iff.mpr (by omega)
        rw [hd]
        rfl
    · rw [if_neg hcond] at hrep
      rw [hrep]
      constructor
      · intro h
        exact Bool.noConfusion h
      · rintro ⟨-, hlen, hall⟩
        exfalso
        apply hcond
        refine ⟨by omega, ?_⟩
        intro c hc
        exact (hexid.class_any_iff c).mpr (hall c (List.mem_of_mem_take hc))
  · rw [if_neg hi]
    constructor
    · intro h
      exact Bool.noConfusion h
    · rintro ⟨h0, -, -⟩
      exact absurd h0 hi

/-- What `Validate` accepts. -/
theorem hexid.Validate_eq_true_iff (s : String) :
    hexid.Validate s = true ↔
      s.length = 24 ∧ ∀ c ∈ s.toList, ('0' ≤ c ∧ c ≤ '9') ∨ ('a' ≤ c ∧ c ≤ 'f') := by
  have hlength : s.length = s.toList.length := rfl
  unfold hexid.Validate hexid.MatchString
  rw [List.any_eq_true]
  constructor
  · rintro ⟨i, -, hi⟩
    have hne : (hexid.matchEnds hexid.pattern (i, s.toList.drop i)).isEmpty = false := by
      cases hb : (hexid.matchEnds hexid.pattern (i, s.toList.drop i)).isEmpty
      · rfl
      · rw [hb] at hi; exact Bool.noConfusion hi
    obtain ⟨h0, hlen, hall⟩ := (hexid.matchEnds_pattern_isEmpty i _).mp hne
    subst h0
    rw [List.drop_zero] at hlen hall
    exact ⟨hlength.trans hlen, hall⟩
  · rintro ⟨hlen, hall⟩
    refine ⟨0, List.mem_range.mpr (Nat.succ_pos _), ?_⟩
    have hne := (hexid.matchEnds_pattern_isEmpty 0 s.toList).mpr
      ⟨rfl, hlength.symm.trans hlen, hall⟩
    rw [List.drop_zero, hne]
    rfl

theorem hexid.ldigits_getD_hex (k : Nat) (hk : k < 16) :
    ('0' ≤ hexid.ldigits.getD k 'x' ∧ hexid.ldigits.getD k 'x' ≤ '9') ∨
      ('a' ≤ hexid.ldigits.getD k 'x' ∧ hexid.ldigits.getD k 'x' ≤ 'f') := by
  interval_cases k <;> decide

theorem hexid.Sprintf_x_toList (b : List Nat) :
    (hexid.Sprintf_x b).toList
      = b.flatMap fun c => [hexid.ldigits.getD (c / 16) 'x', hexid.ldigits.getD (c % 16) 'x'] :=
  rfl

theorem hexid.Sprintf_x_length (b : List Nat) : (hexid.Sprintf_x b).length = 2 * b.length := by
  have hlength : (hexid.Sprintf_x b).length = (hexid.Sprintf_x b).toList.length := rfl
  rw [hlength, hexid.Sprintf_x_toList]
  clear hlength
  induction b with
  | nil => rfl
  | cons x rest ih =>
    rw [List.flatMap_cons, List.length_append, ih]
    simp only [List.length_cons, List.length_nil]
    omega

theorem hexid.Sprintf_x_hex (b : List Nat) (hbyte : ∀ x ∈ b, x < 256) :
    ∀ c ∈ (hexid.Sprintf_x b).toList, ('0' ≤ c ∧ c ≤ '9') ∨ ('a' ≤ c ∧ c ≤ 'f') := by
  intro c hc
  rw [hexid.Sprintf_x_toList, List.mem_flatMap] at hc
  obtain ⟨x, hx, hcx⟩ := hc
  have hx256 := hbyte x hx
  simp only [List.mem_cons, List.mem_singleton, List.not_mem_nil, or_false] at hcx
  rcases hcx with rfl | rfl
  · exact hexid.ldigits_getD_hex (x / 16) (by omega)
  · exact hexid.ldigits_getD_hex (x % 16) (by omega)

/-! ## Identifiers -/

/-- C17: when the randomness source delivers 12 bytes, `Generate` returns their
lowercase hex encoding, which has exactly 24 characters and is accepted by
`Validate`. -/
theorem Generate_valid {ε : Type} (randRead : Nat → Except ε (List Nat)) (b : List Nat)
    (hread : randRead 12 = .ok b) (hlen : b.length = 12) (hbyte : ∀ x ∈ b, x < 256) :
    hexid.Generate randRead = .ok (hexid.Sprintf_x b) ∧
    (hexid.Sprintf_x b).length = 24 ∧
    hexid.Validate (hexid.Sprintf_x b) = true := by
  have hl : (hexid.Sprintf_x b).length = 24 := by rw [hexid.Sprintf_x_length, hlen]
  refine ⟨?_, hl, ?_⟩
  · simp only [hexid.Generate, hread]
  · exact (hexid.Validate_eq_true_iff _).mpr ⟨hl, hexid.Sprintf_x_hex b hbyte⟩

theorem Generate_valid_witness :
    hexid.Generate (fun _ => (.ok [0, 17, 34, 51, 68, 85, 102, 119, 136, 153, 171, 255] : Except Unit (List Nat)))
      = .ok (hexid.Sprintf_x [0, 17, 34, 51, 68, 85, 102, 119, 136, 153, 171, 255]) ∧
    (hexid.Sprintf_x [0, 17, 34, 51, 68, 85, 102, 119, 136, 153, 171, 255]).length = 24 ∧
    hexid.Validate (hexid.Sprintf_x [0, 17, 34, 51, 68, 85, 102, 119, 136, 153, 171, 255]) = true :=
  Generate_valid _ [0, 17, 34, 51, 68, 85, 102, 119, 136, 153, 171, 255] rfl rfl (by decide)

/-- C18: `Validate` accepts a string exactly when it has 24 characters, each one
of `0`-`9` or `a`-`f`; uppercase hex digits, a shorter string, a longer string and
a 24-digit string followed by a newline are rejected. -/
theorem Validate_iff :
    (∀ s : String, hexid.Validate s = true ↔
      s.length = 24 ∧ ∀ c ∈ s.toList, ('0' ≤ c ∧ c ≤ '9') ∨ ('a' ≤ c ∧ c ≤ 'f')) ∧
    hexid.Validate "0123456789ABCDEF01234567" = false ∧
    hexid.Validate "0123456789abcdef0123456" = false ∧
    hexid.Validate "0123456789abcdef012345678" = false ∧
    hexid.Validate "0123456789abcdef01234567\n" = false ∧
    hexid.Validate "0123456789abcdef01234567" = true := by
  refine ⟨hexid.Validate_eq_true_iff, ?_, ?_, ?_, ?_, ?_⟩ <;> decide

/-! ## Lemmas on the validation loops -/

/-- The rule loop appends one error per rejecting rule, in rule order. -/
theorem httpvalidator.runRules_eq (location param value : String)
    (rules : List httpvalidator.Rule) (response : List httpvalidator.ValidationError) :
    httpvalidator.runRules location param value rules response =
      response ++ (rules.filter fun rule => !rule.Validate value).map fun rule =>
        { Location := location, Param := param, Value := value, Message := rule.Description } := by
  unfold httpvalidator.runRules
  induction rules generalizing response with
  | nil => simp
  | cons rule rest ih =>
    rw [List.foldl_cons, ih]
    cases hr : rule.Validate value <;> simp [List.filter_cons, hr]

/-- One turn of the field loop appends the errors asked of that field. -/
theorem httpvalidator.field_step (body : GoMap String) (entry : String × httpvalidator.BodyField)
    (response : List httpvalidator.ValidationError) :
    (if (!(body.get? entry.1).isSome && entry.2.Required) = true then
        response ++ [{ Location := "body", Param := entry.1, Value := (body.get? entry.1).getD "",
                       Message := httpvalidator.requiredMessage }]
      else httpvalidator.runRules "body" entry.1 ((body.get? entry.1).getD "") entry.2.Rules response)
      = response ++ httpvalidator.expectedFieldErrors body entry := by
  unfold httpvalidator.expectedFieldErrors
  cases hget : body.get? entry.1 with
  | none =>
    cases hreq : entry.2.Required with
    | true => simp [httpvalidator.requiredMessage]
    | false => simp [httpvalidator.runRules_eq]
  | some value => simp [httpvalidator.runRules_eq]

theorem httpvalidator.fields_foldl (body : GoMap String)
    (fields : List (String × httpvalidator.BodyField))
    (response : List httpvalidator.ValidationError) :
    fields.foldl (fun response entry =>
      let param := entry.1
      let field := entry.2
      let value := (body.get? param).getD ""
      let ok := (body.get? param).isSome
      if !ok && field.Required then
        response ++ [{ Location := "body", Param := param, Value := value,
                       Message := httpvalidator.requiredMessage }]
      else httpvalidator.runRules "body" param value field.Rules response) response
      = response ++ fields.flatMap (httpvalidator.expectedFieldErrors body) := by
  induction fields generalizing response with
  | nil => simp
  | cons entry rest ih =>
    rw [List.foldl_cons, List.flatMap_cons, ← List.append_assoc]
    rw [← httpvalidator.field_step body entry response]
    exact ih _

/-- The whole result of `ValidateBody`: the errors of the declared fields, field
after field in the order of the loop. -/
theorem httpvalidator.ValidateBody_eq_flatMap (v : httpvalidator.Validator) (bodyName : String)
    (body : GoMap String) :
    v.ValidateBody bodyName body
      = (v.fieldsOf bodyName).flatMap (httpvalidator.expectedFieldErrors body) := by
  unfold httpvalidator.Validator.ValidateBody
  rw [httpvalidator.fields_foldl]
  rfl

theorem httpvalidator.expectedFieldErrors_param (body : GoMap String)
    (entry : String × httpvalidator.BodyField) :
    ∀ e ∈ httpvalidator.expectedFieldErrors body entry, e.Param = entry.1 := by
  intro e he
  unfold httpvalidator.expectedFieldErrors at he
  split at he
  · rw [List.mem_singleton] at he; rw [he]
  · obtain ⟨rule, -, hrule⟩ := List.mem_map.mp he
    rw [← hrule]

/-- With no key twice, the errors of the result that name a declared field are
the errors of that field. -/
theorem httpvalidator.filter_param_flatMap (body : GoMap String)
    (fields : List (String × httpvalidator.BodyField)) (hnodup : (fields.map Prod.fst).Nodup)
    (entry : String × httpvalidator.BodyField) (hmem : entry ∈ fields) :
    (fields.flatMap (httpvalidator.expectedFieldErrors body)).filter (fun e => e.Param = entry.1)
      = httpvalidator.expectedFieldErrors body entry := by
  induction fields with
  | nil => simp at hmem
  | cons head rest ih =>
    rw [List.map_cons, List.nodup_cons] at hnodup
    rw [List.flatMap_cons, List.filter_append]
    have hkeep : ∀ (x : String × httpvalidator.BodyField),
        (httpvalidator.expectedFieldErrors body x).filter (fun e => e.Param = entry.1)
          = if x.1 = entry.1 then httpvalidator.expectedFieldErrors body x else [] := by
      intro x
      by_cases hx : x.1 = entry.1
      · rw [if_pos hx, List.filter_eq_self]
        intro e he
        simp [httpvalidator.expectedFieldErrors_param body x e he, hx]
      · rw [if_neg hx, List.filter_eq_nil_iff]
        intro e he
        simp [httpvalidator.expectedFieldErrors_param body x e he, hx]
    rcases List.mem_cons.mp hmem with rfl | hrest
    · have hnone : (rest.flatMap (httpvalidator.expectedFieldErrors body)).filter
          (fun e => e.Param = entry.1) = [] := by
        rw [List.filter_eq_nil_iff]
        intro e he
        obtain ⟨x, hx, hex⟩ := List.mem_flatMap.mp he
        have hp := httpvalidator.expectedFieldErrors_param body x e hex
        have hne : x.1 ≠ entry.1 := by
          intro heq
          exact hnodup.1 (heq ▸ List.mem_map_of_mem Prod.fst hx)
        simp [hp, hne]
      rw [hkeep entry, if_pos rfl, hnone, List.append_nil]
    · have hne : head.1 ≠ entry.1 := by
        intro heq
        exact hnodup.1 (heq ▸ List.mem_map_of_mem Prod.fst hrest)
      rw [hkeep head, if_neg hne, List.nil_append]
      exact ih hnodup.2 hrest

/-- The fields of a schema, registered or not, have no key twice. -/
theorem httpvalidator.fieldsOf_nodup (v : httpvalidator.Validator) (bodyName : String) :
    ((v.fieldsOf bodyName).map Prod.fst).Nodup := by
  unfold httpvalidator.Validator.fieldsOf
  split
  · next template _ => exact template.Fields.nodup
  · exact List.nodup_nil

/-! ## Body validation -/

/-- C19: for every schema and input map, a declared field that is required and
whose key is absent from the input contributes exactly one error,
`{Location: "body", Param: name, Value: "", Message: "field is required"}`; no
error of one of its rules is reported. -/
theorem ValidateBody_required_missing (v : httpvalidator.Validator) (bodyName : String)
    (body : GoMap String) (param : String) (field : httpvalidator.BodyField)
    (hdecl : (param, field) ∈ v.fieldsOf bodyName) (hreq : field.Required = true)
    (habs : body.get? param = none) :
    (v.ValidateBody bodyName body).filter (fun e => e.Param = param)
      = [{ Location := "body", Param := param, Value := "", Message := "field is required" }] := by
  rw [httpvalidator.ValidateBody_eq_flatMap]
  have h := httpvalidator.filter_param_flatMap body (v.fieldsOf bodyName)
    (httpvalidator.fieldsOf_nodup v bodyName) (param, field) hdecl
  rw [h]
  simp [httpvalidator.expectedFieldErrors, hreq, habs]

theorem ValidateBody_required_missing_witness :
    (handler.initValidator.ValidateBody "Credential" handler.usernameOnly).filter
        (fun e => e.Param = "password")
      = [{ Location := "body", Param := "password", Value := "", Message := "field is required" }] :=
  ValidateBody_required_missing handler.initValidator "Credential" handler.usernameOnly "password"
    { Required := true, Rules := [⟨"password must be a non-empty string", handler.nonEmpty⟩] }
    (List.mem_cons_of_mem _ (List.mem_cons_self _ _)) rfl rfl

/-- C20: validation is fully enumerated. The result of `ValidateBody` is the
errors of the declared fields, field after field, with no stop after a failing
rule or field; a declared field that is present, or absent and not required,
contributes exactly one error per rule that rejects its value (the empty string
when absent), in rule order, with the rule's description as `Message` and the
value as `Value`; and the result is empty exactly when no declared field is
missing and required and no rule rejects. -/
theorem ValidateBody_fully_enumerated (v : httpvalidator.Validator) (bodyName : String)
    (body : GoMap String) :
    v.ValidateBody bodyName body
      = (v.fieldsOf bodyName).flatMap (httpvalidator.expectedFieldErrors body) ∧
    (∀ param field, (param, field) ∈ v.fieldsOf bodyName →
      ¬ (body.get? param = none ∧ field.Required = true) →
      (v.ValidateBody bodyName body).filter (fun e => e.Param = param)
        = (field.Rules.filter fun rule => !rule.Validate ((body.get? param).getD "")).map
            fun rule => { Location := "body", Param := param,
                          Value := (body.get? param).getD "", Message := rule.Description }) ∧
    (v.ValidateBody bodyName body = [] ↔
      ∀ param field, (param, field) ∈ v.fieldsOf bodyName →
        ¬ (body.get? param = none ∧ field.Required = true) ∧
        ∀ rule ∈ field.Rules, rule.Validate ((body.get? param).getD "") = true) := by
  have hall := httpvalidator.ValidateBody_eq_flatMap v bodyName body
  refine ⟨hall, ?_, ?_⟩
  · intro param field hdecl hnot
    rw [hall, httpvalidator.filter_param_flatMap body (v.fieldsOf bodyName)
      (httpvalidator.fieldsOf_nodup v bodyName) (param, field) hdecl]
    unfold httpvalidator.expectedFieldErrors
    rw [if_neg hnot]
  · rw [hall, List.flatMap_eq_nil_iff]
    constructor
    · intro h param field hdecl
      have hnil := h (param, field) hdecl
      unfold httpvalidator.expectedFieldErrors at hnil
      by_cases hmiss : body.get? param = none ∧ field.Required = true
      · rw [if_pos hmiss] at hnil
        exact absurd hnil (List.cons_ne_nil _ _)
      · rw [if_neg hmiss, List.map_eq_nil_iff, List.filter_eq_nil_iff] at hnil
        refine ⟨hmiss, ?_⟩
        intro rule hrule
        have := hnil rule hrule
        simpa using this
    · intro h entry hentry
      obtain ⟨hmiss, hrules⟩ := h entry.1 entry.2 hentry
      unfold httpvalidator.expectedFieldErrors
      rw [if_neg hmiss, List.map_eq_nil_iff, List.filter_eq_nil_iff]
      intro rule hrule
      simp [hrules rule hrule]

theorem ValidateBody_fully_enumerated_witness :
    (handler.initValidator.ValidateBody "Comment" handler.emptyComment).filter
        (fun e => e.Param = "comment")
      = ([⟨"comment must be a non-empty string", handler.nonEmpty⟩].filter
          fun rule : httpvalidator.Rule =>
            !rule.Validate ((handler.emptyComment.get? "comment").getD "")).map
          fun rule => { Location := "body", Param := "comment",
                        Value := (handler.emptyComment.get? "comment").getD "",
                        Message := rule.Description } :=
  (ValidateBody_fully_enumerated handler.initValidator "Comment" handler.emptyComment).2.1
    "comment" { Required := true, Rules := [⟨"comment must be a non-empty string", handler.nonEmpty⟩] }
    (List.mem_cons_self _ _) (by decide)

/-! ## Undeclared fields, path values and the schemas of the handler -/

/-- The errors asked of a declared field depend on the input map only through
the lookup of that field. -/
theorem httpvalidator.expectedFieldErrors_congr (body1 body2 : GoMap String)
    (entry : String × httpvalidator.BodyField) (h : body1.get? entry.1 = body2.get? entry.1) :
    httpvalidator.expectedFieldErrors body1 entry = httpvalidator.expectedFieldErrors body2 entry := by
  unfold httpvalidator.expectedFieldErrors
  rw [h]

/-- Two iteration orders of the same fields give the same errors up to order. -/
theorem httpvalidator.ValidateBody_perm (v1 v2 : httpvalidator.Validator) (bodyName : String)
    (body : GoMap String) (hperm : (v1.fieldsOf bodyName).Perm (v2.fieldsOf bodyName)) :
    (v1.ValidateBody bodyName body).Perm (v2.ValidateBody bodyName body) := by
  rw [httpvalidator.ValidateBody_eq_flatMap, httpvalidator.ValidateBody_eq_flatMap]
  exact hperm.flatMap_right _

/-- C21: `ValidateBody` ignores undeclared fields. When two input maps agree, in
presence and in value, on every field the schema declares, `ValidateBody`
returns the same errors for both, whatever other keys the maps hold: the same
list when the loop visits the fields in the same order, and the same errors up
to order when a second run visits them in another order. -/
theorem ValidateBody_ignores_undeclared (v : httpvalidator.Validator) (bodyName : String)
    (body1 body2 : GoMap String)
    (hagree : ∀ entry ∈ v.fieldsOf bodyName, body1.get? entry.1 = body2.get? entry.1) :
    v.ValidateBody bodyName body1 = v.ValidateBody bodyName body2 ∧
    ∀ v2 : httpvalidator.Validator, (v2.fieldsOf bodyName).Perm (v.fieldsOf bodyName) →
      (v2.ValidateBody bodyName body2).Perm (v.ValidateBody bodyName body1) := by
  have heq : v.ValidateBody bodyName body1 = v.ValidateBody bodyName body2 := by
    rw [httpvalidator.ValidateBody_eq_flatMap, httpvalidator.ValidateBody_eq_flatMap]
    exact List.flatMap_congr fun entry hentry =>
      httpvalidator.expectedFieldErrors_congr body1 body2 entry (hagree entry hentry)
  refine ⟨heq, fun v2 hperm => ?_⟩
  rw [heq]
  exact httpvalidator.ValidateBody_perm v2 v bodyName body2 hperm

theorem ValidateBody_ignores_undeclared_witness :
    handler.initValidator.ValidateBody "Credential" handler.usernameOnly
      = handler.initValidator.ValidateBody "Credential" (handler.usernameOnly.insert "extra" "1") ∧
    ∀ v2 : httpvalidator.Validator,
      (v2.fieldsOf "Credential").Perm (handler.initValidator.fieldsOf "Credential") →
      (v2.ValidateBody "Credential" (handler.usernameOnly.insert "extra" "1")).Perm
        (handler.initValidator.ValidateBody "Credential" handler.usernameOnly) :=
  ValidateBody_ignores_undeclared handler.initValidator "Credential" handler.usernameOnly
    (handler.usernameOnly.insert "extra" "1") (by decide)

/-- C23: `ValidatePathValue` returns, in rule order, one error
`{Location: "path", Param: name, Value: value, Message: description}` per rule of
the name that rejects the value, and so the empty list exactly when every rule
accepts the value. -/
theorem ValidatePathValue_enumerated (v : httpvalidator.Validator) (param value : String) :
    v.ValidatePathValue param value
      = (((v.PathValueTemplates.get? param).getD []).filter fun rule => !rule.Validate value).map
          (fun rule => { Location := "path", Param := param, Value := value,
                         Message := rule.Description }) ∧
    (v.ValidatePathValue param value = [] ↔
      ∀ rule ∈ (v.PathValueTemplates.get? param).getD [], rule.Validate value = true) := by
  have h : v.ValidatePathValue param value
      = (((v.PathValueTemplates.get? param).getD []).filter fun rule => !rule.Validate value).map
          (fun rule => { Location := "path", Param := param, Value := value,
                         Message := rule.Description }) := by
    unfold httpvalidator.Validator.ValidatePathValue
    rw [httpvalidator.runRules_eq, List.nil_append]
  refine ⟨h, ?_⟩
  rw [h, List.map_eq_nil_iff, List.filter_eq_nil_iff]
  constructor
  · intro hall rule hrule
    have := hall rule hrule
    simpa using this
  · intro hall rule hrule
    simp [hall rule hrule]

/-- C25: the translator on each kind of error. `RequestNotParsed` gives status
400 with message "bad request"; the four not-found kinds give 404;
`WrongCredential` and `Unauthorized` give 401; `NotOwner` gives 403;
`UserAlreadyExists{u}` gives 422 with the single item
`{"body", "username", u, "already exists"}`; every error that is not a
`customerr` value gives 500 with message "internal error". -/
theorem handleError_categories :
    (∀ m, handler.handleError (.custom (.RequestNotParsed m))
      = { StatusCode := 400, Body := some (.BadRequest "bad request") }) ∧
    (∀ id, handler.handleError (.custom (.UserNotFoundByID id))
      = { StatusCode := 404, Body := some (.NotFound "user not found") }) ∧
    (∀ u, handler.handleError (.custom (.UserNotFoundByUsername u))
      = { StatusCode := 404, Body := some (.NotFound "user not found") }) ∧
    (∀ id, handler.handleError (.custom (.PostNotFoundByID id))
      = { StatusCode := 404, Body := some (.NotFound "post not found") }) ∧
    (∀ postID commentID, handler.handleError (.custom (.CommentNotFoundByID postID commentID))
      = { StatusCode := 404, Body := some (.NotFound "comment not found") }) ∧
    (∀ u, handler.handleError (.custom (.WrongCredential u))
      = { StatusCode := 401, Body := some (.Unauthorized "wrong credential") }) ∧
    (∀ m, handler.handleError (.custom (.Unauthorized m))
      = { StatusCode := 401, Body := some (.Unauthorized "user unauthorized") }) ∧
    (∀ u, handler.handleError (.custom (.NotOwner u))
      = { StatusCode := 403, Body := some (.Forbidden "user not own this resource") }) ∧
    (∀ u, handler.handleError (.custom (.UserAlreadyExists u))
      = { StatusCode := 422,
          Body := some (.UnprocessableEntity
            [{ Location := "body", Param := "username", Value := u, Message := "already exists" }]) }) ∧
    (∀ m, handler.handleError (.other m)
      = { StatusCode := 500, Body := some (.InternalError "internal error") }) ∧
    (∀ e, handler.handleError (.http e)
      = { StatusCode := 500, Body := some (.InternalError "internal error") }) := by
  refine ⟨?_, ?_, ?_, ?_, ?_, ?_, ?_, ?_, ?_, ?_, ?_⟩ <;> intros <;> rfl

/-- C26, the code at the failing input: with one stored post by author alice in
category funny, `GetPostsByAuthor("alice")` of the in-memory repository returns
no post, and `GetPostsByAuthor("funny")` returns the post although none of its
authors is called funny. -/
theorem GetPostsByAuthor_compares_category :
    samplePost.Author.Username = "alice" ∧ samplePost.Category = "funny" ∧
    slicerepo.GetPostsByAuthor [samplePost] "alice" = .ok [] ∧
    slicerepo.GetPostsByAuthor [samplePost] "funny" = .ok [samplePost] := by
  decide

/-- C30: casting a vote and withdrawing it is a round trip. For a voter with no
entry in `p.Votes`, `Unvote` after `Upvote` and `Unvote` after `Downvote` give
back the `Score` and the `Votes` of `p`, and indeed the whole post. -/
theorem vote_then_unvote_roundtrip (p : Post) (u : String) (h : ∀ v ∈ p.Votes, v.UserID ≠ u) :
    ((Unvote (Upvote p u) u).Score = p.Score ∧ (Unvote (Upvote p u) u).Votes = p.Votes) ∧
    ((Unvote (Downvote p u) u).Score = p.Score ∧ (Unvote (Downvote p u) u).Votes = p.Votes) ∧
    Unvote (Upvote p u) u = p ∧ Unvote (Downvote p u) u = p := by
  have hnone := findVoter_eq_none h
  have hup : Unvote (Upvote p u) u = p := by
    have hf := findVoter_split p.Votes ⟨u, 1⟩ [] h rfl
    have hrm := remove_split p.Votes ⟨u, 1⟩ []
    cases p
    simp only [Upvote, Unvote, hnone, hf, hrm] at *
    simp
  have hdown : Unvote (Downvote p u) u = p := by
    have hf := findVoter_split p.Votes ⟨u, -1⟩ [] h rfl
    have hrm := remove_split p.Votes ⟨u, -1⟩ []
    cases p
    simp only [Downvote, Unvote, hnone, hf, hrm] at *
    simp
  refine ⟨⟨by rw [hup], by rw [hup]⟩, ⟨by rw [hdown], by rw [hdown]⟩, hup, hdown⟩

theorem vote_then_unvote_roundtrip_witness :
    ((Unvote (Upvote samplePost "bob") "bob").Score = samplePost.Score ∧
      (Unvote (Upvote samplePost "bob") "bob").Votes = samplePost.Votes) ∧
    ((Unvote (Downvote samplePost "bob") "bob").Score = samplePost.Score ∧
      (Unvote (Downvote samplePost "bob") "bob").Votes = samplePost.Votes) ∧
    Unvote (Upvote samplePost "bob") "bob" = samplePost ∧
    Unvote (Downvote samplePost "bob") "bob" = samplePost :=
  vote_then_unvote_roundtrip samplePost "bob" (by decide)

/-! ## The schemas `Credential` and `PostInput` -/

theorem GoMap.get?_insert_empty (key key1 value : String) :
    ((GoMap.empty : GoMap String).insert key value).get? key1
      = if key = key1 then some value else none := by
  by_cases h : key = key1 <;> simp [GoMap.get?, GoMap.insert, GoMap.empty, h]

/-- The rule `len(s) > 0` accepts exactly the non-empty strings. -/
theorem handler.nonEmpty_eq_true_iff (s : String) : handler.nonEmpty s = true ↔ s ≠ "" := by
  unfold handler.nonEmpty
  rw [decide_eq_true_iff]
  cases s with
  | mk l =>
    cases l with
    | nil =>
      constructor
      · intro h; exact absurd h (by decide)
      · intro h; exact absurd rfl h
    | cons c cs =>
      constructor
      · intro _ h
        exact absurd (congrArg String.data h) (List.cons_ne_nil c cs)
      · intro _
        have hpos := Char.utf8Size_pos c
        simp only [String.utf8ByteSize, String.utf8ByteSize.go]
        omega

/-- The category rule accepts exactly the six categories. -/
theorem handler.isCategory_eq_true_iff (category : String) :
    handler.isCategory category = true
      ↔ category ∈ ["music", "funny", "videos", "programming", "news", "fashion"] := by
  unfold handler.isCategory handler.categories
  rw [List.any_eq_true]
  constructor
  · rintro ⟨x, hx, hxc⟩
    have : x = category := by simpa using hxc
    exact this ▸ hx
  · intro h
    exact ⟨category, h, by simp⟩

/-- The result is empty exactly when every declared field asks for no error. -/
theorem httpvalidator.ValidateBody_eq_nil_iff (v : httpvalidator.Validator) (bodyName : String)
    (body : GoMap String) :
    v.ValidateBody bodyName body = [] ↔
      ∀ entry ∈ v.fieldsOf bodyName, httpvalidator.expectedFieldErrors body entry = [] := by
  rw [httpvalidator.ValidateBody_eq_flatMap, List.flatMap_eq_nil_iff]

/-- A required field with one rule asks for no error exactly when its key is
present with a value the rule accepts. -/
theorem httpvalidator.expectedFieldErrors_required_single (body : GoMap String)
    (param description : String) (accept : String → Bool) :
    httpvalidator.expectedFieldErrors body
        (param, { Required := true, Rules := [⟨description, accept⟩] }) = []
      ↔ ∃ value, body.get? param = some value ∧ accept value = true := by
  unfold httpvalidator.expectedFieldErrors
  cases hget : body.get? param with
  | none => simp
  | some value =>
    cases hacc : accept value <;> simp [hacc]

/-- C22: with the schemas of `initValidator`, visited in any order, and a body
holding only the key `username` with a non-empty value, `ValidateBody` of
`"Credential"` returns exactly the one error
`{Location: "body", Param: "password", Value: "", Message: "field is required"}`. -/
theorem Credential_missing_password (v : httpvalidator.Validator) (value : String)
    (hperm : (v.fieldsOf "Credential").Perm (handler.initValidator.fieldsOf "Credential"))
    (hne : value ≠ "") :
    v.ValidateBody "Credential" (GoMap.empty.insert "username" value)
      = [{ Location := "body", Param := "password", Value := "", Message := "field is required" }] := by
  have hp := httpvalidator.ValidateBody_perm v handler.initValidator "Credential"
    (GoMap.empty.insert "username" value) hperm
  have hinit : handler.initValidator.ValidateBody "Credential" (GoMap.empty.insert "username" value)
      = [{ Location := "body", Param := "password", Value := "", Message := "field is required" }] := by
    rw [httpvalidator.ValidateBody_eq_flatMap]
    have hfields : handler.initValidator.fieldsOf "Credential"
        = [("username", { Required := true,
                          Rules := [⟨"username must be a non-empty string", handler.nonEmpty⟩] }),
           ("password", { Required := true,
                          Rules := [⟨"password must be a non-empty string", handler.nonEmpty⟩] })] :=
      rfl
    have hvalue : handler.nonEmpty value = true := (handler.nonEmpty_eq_true_iff value).mpr hne
    rw [hfields]
    simp [httpvalidator.expectedFieldErrors, GoMap.get?_insert_empty, hvalue]
  rw [hinit] at hp
  exact List.perm_singleton.mp hp

theorem Credential_missing_password_witness :
    handler.initValidator.ValidateBody "Credential" (GoMap.empty.insert "username" "van")
      = [{ Location := "body", Param := "password", Value := "", Message := "field is required" }] :=
  Credential_missing_password handler.initValidator "van" (List.Perm.refl _) (by decide)

/-- C24: with the schemas of `initValidator`, visited in any order,
`ValidateBody` of `"PostInput"` returns the empty list exactly when the input
holds the keys `category`, `title` and `type`, with the category one of music,
funny, videos, programming, news, fashion, the title non-empty, and the type
`"text"` or `"link"`. -/
theorem PostInput_valid_iff (v : httpvalidator.Validator) (input : GoMap String)
    (hperm : (v.fieldsOf "PostInput").Perm (handler.initValidator.fieldsOf "PostInput")) :
    v.ValidateBody "PostInput" input = [] ↔
      ∃ category title type,
        input.get? "category" = some category ∧
        category ∈ ["music", "funny", "videos", "programming", "news", "fashion"] ∧
        input.get? "title" = some title ∧ title ≠ "" ∧
        input.get? "type" = some type ∧ (type = "text" ∨ type = "link") := by
  have hp := httpvalidator.ValidateBody_perm v handler.initValidator "PostInput" input hperm
  have hnil : v.ValidateBody "PostInput" input = []
      ↔ handler.initValidator.ValidateBody "PostInput" input = [] := by
    constructor
    · intro h; rw [h] at hp; exact hp.symm.eq_nil
    · intro h; rw [h] at hp; exact hp.eq_nil
  have hfields : handler.initValidator.fieldsOf "PostInput"
      = [("category", { Required := true,
                        Rules := [⟨"category must has specific type", handler.isCategory⟩] }),
         ("title", { Required := true,
                     Rules := [⟨"title must be a non-empty string", handler.nonEmpty⟩] }),
         ("type", { Required := true,
                    Rules := [⟨"type must be a text or a link",
                               fun postType => postType = "text" || postType = "link"⟩] })] :=
    rfl
  rw [hnil, httpvalidator.ValidateBody_eq_nil_iff, hfields]
  simp only [List.forall_mem_cons, List.not_mem_nil, false_implies, implies_true, and_true,
    httpvalidator.expectedFieldErrors_required_single]
  constructor
  · rintro ⟨⟨c, hc, hcat⟩, ⟨t, ht, htitle⟩, ⟨ty, hty, htype⟩⟩
    refine ⟨c, t, ty, hc, (handler.isCategory_eq_true_iff c).mp hcat, ht,
      (handler.nonEmpty_eq_true_iff t).mp htitle, hty, ?_⟩
    simpa using htype
  · rintro ⟨c, t, ty, hc, hcat, ht, htitle, hty, htype⟩
    refine ⟨⟨c, hc, (handler.isCategory_eq_true_iff c).mpr hcat⟩,
      ⟨t, ht, (handler.nonEmpty_eq_true_iff t).mpr htitle⟩, ⟨ty, hty, ?_⟩⟩
    simpa using htype

theorem PostInput_valid_iff_witness :
    handler.initValidator.ValidateBody "PostInput" handler.goodPostInput = [] ↔
      ∃ category title type,
        handler.goodPostInput.get? "category" = some category ∧
        category ∈ ["music", "funny", "videos", "programming", "news", "fashion"] ∧
        handler.goodPostInput.get? "title" = some title ∧ title ≠ "" ∧
        handler.goodPostInput.get? "type" = some type ∧ (type = "text" ∨ type = "link") :=
  PostInput_valid_iff handler.initValidator handler.goodPostInput (List.Perm.refl _)

/-! ## Views, comments and the create-post validation -/

theorem slicerepo.getD_split (pre : List Post) (post : Post) (rest : List Post) (d : Post) :
    (pre ++ post :: rest).getD pre.length d = post := by
  induction pre with
  | nil => rfl
  | cons q more ih => simpa using ih

/-- C27: when `post` is the post stored under `id`, `service.GetPostByID` returns
it with `Views` increased by exactly 1, the stored post becomes the returned one,
and the posts before and after it are the same; when no stored post has the
identifier, the call fails with `PostNotFoundByID{id}` and the state is the one
before the call. -/
theorem GetPostByID_counts_view (posts : List Post) (id : String) :
    (∀ post, StoredUnder posts id post →
      ∃ pre rest, posts = pre ++ post :: rest ∧
        service.GetPostByID posts id =
          (.ok { post with Views := post.Views + 1 },
           pre ++ { post with Views := post.Views + 1 } :: rest)) ∧
    ((∀ q ∈ posts, q.ID ≠ id) →
      service.GetPostByID posts id = (.error (.PostNotFoundByID id), posts)) := by
  constructor
  · rintro post ⟨pre, rest, hs, hid, hpre⟩
    refine ⟨pre, rest, hs, ?_⟩
    have hf := slicerepo.findPost_split pre post rest hpre hid
    simp only [service.GetPostByID, slicerepo.GetPostByIDAndUpdateViews, hs, hf,
      slicerepo.modifyAt_split, slicerepo.getD_split]
  · intro hnone
    simp only [service.GetPostByID, slicerepo.GetPostByIDAndUpdateViews,
      slicerepo.findPost_eq_none hnone]

theorem GetPostByID_counts_view_witness :
    (∃ pre rest, [otherPost, samplePost] = pre ++ samplePost :: rest ∧
      service.GetPostByID [otherPost, samplePost] samplePost.ID =
        (.ok { samplePost with Views := samplePost.Views + 1 },
         pre ++ { samplePost with Views := samplePost.Views + 1 } :: rest)) ∧
    service.GetPostByID [otherPost] samplePost.ID
      = (.error (.PostNotFoundByID samplePost.ID), [otherPost]) :=
  ⟨(GetPostByID_counts_view [otherPost, samplePost] samplePost.ID).1 samplePost
      ⟨[otherPost], [], rfl, rfl, by decide⟩,
   (GetPostByID_counts_view [otherPost] samplePost.ID).2 (by decide)⟩

/-- C28 as stated fails when the randomness source of the identifier generator
fails: with a stored post under the identifier, `AddComment` returns the error of
the source and no post; with no post under the identifier it returns that error
too, not `PostNotFoundByID`. The state is unchanged in both cases. -/
theorem AddComment_broken_rand_counterexample :
    StoredUnder [samplePost] samplePost.ID samplePost ∧
    service.AddComment brokenRand "2024-01-04T00:00:00.000Z" [samplePost] samplePost.ID "hi" bob
      = (.error (.other "entropy source unavailable"), [samplePost]) ∧
    service.AddComment brokenRand "2024-01-04T00:00:00.000Z" [] samplePost.ID "hi" bob
      = (.error (.other "entropy source unavailable"), []) ∧
    service.AddComment brokenRand "2024-01-04T00:00:00.000Z" [] samplePost.ID "hi" bob
      ≠ (.error (.custom (.PostNotFoundByID samplePost.ID)), []) :=
  ⟨⟨[], [], rfl, rfl, by decide⟩, by decide, by decide, by decide⟩

/-- C28, amended: when the randomness source delivers the bytes `b` of the
comment identifier, `AddComment` on the post stored under `postID` returns that
post with one new comment appended after the previous ones, with `Body = text`,
`Author = {usr.ID, usr.Username}`, the generated identifier and the current
time; the stored post becomes the returned one and nothing else changes. When
no stored post has the identifier it fails with `PostNotFoundByID{postID}` and
the state is unchanged. When the source fails, its error is returned and the
state is unchanged. -/
theorem AddComment_appends (randRead : Nat → Except GoError (List Nat)) (now : String)
    (posts : List Post) (postID text : String) (usr : User) :
    (∀ b, randRead 12 = .ok b →
      (∀ post, StoredUnder posts postID post →
        ∃ pre rest, posts = pre ++ post :: rest ∧
          service.AddComment randRead now posts postID text usr =
            (.ok { post with Comments := post.Comments ++
                    [{ ID := hexid.Sprintf_x b, Created := now,
                       Author := { ID := usr.ID, Username := usr.Username }, Body := text }] },
             pre ++ { post with Comments := post.Comments ++
                    [{ ID := hexid.Sprintf_x b, Created := now,
                       Author := { ID := usr.ID, Username := usr.Username }, Body := text }] }
               :: rest)) ∧
      ((∀ q ∈ posts, q.ID ≠ postID) →
        service.AddComment randRead now posts postID text usr
          = (.error (.custom (.PostNotFoundByID postID)), posts))) ∧
    (∀ err, randRead 12 = .error err →
      service.AddComment randRead now posts postID text usr = (.error err, posts)) := by
  constructor
  · intro b hb
    constructor
    · rintro post ⟨pre, rest, hs, hid, hpre⟩
      refine ⟨pre, rest, hs, ?_⟩
      have hf := slicerepo.findPost_split pre post rest hpre hid
      simp only [service.AddComment, hexid.Generate, hb, slicerepo.AddComment, NewComment, hs, hf,
        slicerepo.modifyAt_split, slicerepo.getD_split]
    · intro hnone
      simp only [service.AddComment, hexid.Generate, hb, slicerepo.AddComment,
        slicerepo.findPost_eq_none hnone]
  · intro err herr
    simp only [service.AddComment, hexid.Generate, herr]

theorem AddComment_appends_witness :
    ∃ pre rest, [otherPost, samplePost] = pre ++ samplePost :: rest ∧
      service.AddComment fixedRand "2024-01-04T00:00:00.000Z" [otherPost, samplePost]
          samplePost.ID "hi" bob =
        (.ok { samplePost with Comments := samplePost.Comments ++
                [{ ID := hexid.Sprintf_x [0, 17, 34, 51, 68, 85, 102, 119, 136, 153, 171, 255],
                   Created := "2024-01-04T00:00:00.000Z",
                   Author := { ID := bob.ID, Username := bob.Username }, Body := "hi" }] },
         pre ++ { samplePost with Comments := samplePost.Comments ++
                [{ ID := hexid.Sprintf_x [0, 17, 34, 51, 68, 85, 102, 119, 136, 153, 171, 255],
                   Created := "2024-01-04T00:00:00.000Z",
                   Author := { ID := bob.ID, Username := bob.Username }, Body := "hi" }] }
           :: rest) :=
  ((AddComment_appends fixedRand "2024-01-04T00:00:00.000Z" [otherPost, samplePost]
      samplePost.ID "hi" bob).1 _ rfl).1 samplePost ⟨[otherPost], [], rfl, rfl, by decide⟩

/-- C29 as stated fails: for a body with a category outside the list and an
empty text, the rule of the schema `TextPostInput` rejects the text, yet the
batch handed to the client holds the category error of `PostInput` only. -/
theorem createPost_withholds_counterexample :
    handler.initValidator.ValidateBody "TextPostInput" handler.badCategoryEmptyText
      = [{ Location := "body", Param := "text", Value := "",
           Message := "text must be a non-empty string" }] ∧
    handler.createPostValidation handler.initValidator handler.badCategoryEmptyText
      = some [{ Location := "body", Param := "category", Value := "kek",
                Message := "category must has specific type" }] := by
  decide

/-- C29, amended: `createPost` validates in two stages. When the schema
`PostInput` reports an error, the batch handed to the client is every error of
`PostInput`, field after field, and the type-specific schema is not consulted.
When `PostInput` reports none, the batch is every error of the type-specific
schema (`URLPostInput` for type `link`, `TextPostInput` for type `text`), and
there is no batch when that schema reports none either. -/
theorem createPost_reports_by_stage (v : httpvalidator.Validator) (input : GoMap String) :
    (v.ValidateBody "PostInput" input ≠ [] →
      handler.createPostValidation v input
        = some ((v.fieldsOf "PostInput").flatMap (httpvalidator.expectedFieldErrors input))) ∧
    (v.ValidateBody "PostInput" input = [] →
      ((input.get? "type").getD "" = "link" →
        handler.createPostValidation v input
          = if (v.fieldsOf "URLPostInput").flatMap (httpvalidator.expectedFieldErrors input) = []
            then none
            else some ((v.fieldsOf "URLPostInput").flatMap
              (httpvalidator.expectedFieldErrors input))) ∧
      ((input.get? "type").getD "" = "text" →
        handler.createPostValidation v input
          = if (v.fieldsOf "TextPostInput").flatMap (httpvalidator.expectedFieldErrors input) = []
            then none
            else some ((v.fieldsOf "TextPostInput").flatMap
              (httpvalidator.expectedFieldErrors input)))) := by
  refine ⟨?_, ?_⟩
  · intro hne
    have hlen : (v.ValidateBody "PostInput" input).length ≠ 0 := by
      rwa [ne_eq, List.length_eq_zero]
    unfold handler.createPostValidation
    simp only [hlen, ne_eq, not_false_eq_true, if_true]
    rw [httpvalidator.ValidateBody_eq_flatMap]
  · intro hnil
    constructor
    · intro hlink
      unfold handler.createPostValidation
      simp only [hnil, List.length_nil, ne_eq, not_true_eq_false, if_false, hlink, if_true,
        httpvalidator.ValidateBody_eq_flatMap, List.length_eq_zero, ite_not]
    · intro htext
      have hnot : ¬ ("text" = "link") := by decide
      unfold handler.createPostValidation
      simp only [hnil, List.length_nil, ne_eq, not_true_eq_false, if_false, htext, hnot, if_true,
        httpvalidator.ValidateBody_eq_flatMap, List.length_eq_zero, ite_not]

theorem createPost_reports_by_stage_witness :
    handler.createPostValidation handler.initValidator handler.badCategoryEmptyText
      = some ((handler.initValidator.fieldsOf "PostInput").flatMap
          (httpvalidator.expectedFieldErrors handler.badCategoryEmptyText)) :=
  (createPost_reports_by_stage handler.initValidator handler.badCategoryEmptyText).1 (by decide)

end Redditclone
